import Mathlib

/-!
Verification of the CLion context-assembly and session-orchestration core.

The C++ sources are shallowly embedded: strings are lists of characters
(`Str`), the filesystem and network are oracle parameters, sessions are
persisted through an explicit JSON value model, and machine integers are
`Nat`/`ℚ`.  Each definition mirrors the function of the same name in the
repository (files `src/indexer/prompt_analyzer.cpp`,
`src/llm/context_builder.cpp`, `src/llm/session.cpp`,
`src/llm/llm_client.cpp`).
-/

namespace CLion

/-- A C++ `std::string`, embedded as a list of characters. -/
abbrev Str := List Char

/-- ASCII `std::isalnum`. -/
def isAlnumA (c : Char) : Bool :=
  (('a' ≤ c && c ≤ 'z') || ('A' ≤ c && c ≤ 'Z') || ('0' ≤ c && c ≤ '9'))

/-- ASCII `std::tolower`. -/
def toLowerA (c : Char) : Char :=
  if 'A' ≤ c && c ≤ 'Z' then Char.ofNat (c.toNat + 32) else c

/-- Whitespace as recognised by `std::isspace` / the regex class `\s` (ASCII). -/
def isWsA (c : Char) : Bool :=
  c = ' ' || c = '\t' || c = '\n' || c = '\r' || c = '\x0b' || c = '\x0c'

/-- Splitting a string into whitespace-separated words, as repeated
`iss >> word` does. -/
def splitWs : Str → Str → List Str
  | [], cur => if cur = [] then [] else [cur.reverse]
  | c :: rest, cur =>
    if isWsA c then
      if cur = [] then splitWs rest [] else cur.reverse :: splitWs rest []
    else splitWs rest (c :: cur)

namespace indexer

/-- `PromptAnalyzer::normalizeKeyword`: keep alphanumerics, lower-case them. -/
def normalizeKeyword (keyword : Str) : Str :=
  (keyword.filter isAlnumA).map toLowerA

/-- `PromptAnalyzer::splitIntoWords`: whitespace-split, then
`regex_replace(word, "[^a-zA-Z0-9_]", "")`, dropping words that become empty. -/
def splitIntoWords (text : Str) : List Str :=
  ((splitWs text []).map (fun w => w.filter (fun c => isAlnumA c || c = '_'))).filter
    (fun w => w ≠ [])

/-- `AnalysisOptions` (defaults from `prompt_analyzer.h`). -/
structure AnalysisOptions where
  relevance_threshold : ℚ
  include_function_names : Bool
  include_class_names : Bool
  include_includes : Bool
  min_keyword_length : Nat
  stop_words : List Str

/-- The default `AnalysisOptions` value of `prompt_analyzer.h`. -/
def defaultAnalysisOptions : AnalysisOptions where
  relevance_threshold := 3/10
  include_function_names := true
  include_class_names := true
  include_includes := false
  min_keyword_length := 3
  stop_words :=
    (["the", "and", "or", "but", "in", "on", "at", "to", "for", "of", "with",
      "by", "from", "as", "is", "was", "are", "were"].map String.toList)

/-- `PromptAnalyzer::isStopWord`. -/
def isStopWord (word : Str) (stop_words : List Str) : Bool :=
  stop_words.any (fun w => w == word)

/-- `PromptAnalyzer::extractKeywords`: normalize each word, skip short words,
stop words and duplicates. -/
def extractKeywords (text : Str) (options : AnalysisOptions) : List Str :=
  (splitIntoWords text).foldl
    (fun keywords word =>
      let normalized := normalizeKeyword word
      if normalized.length < options.min_keyword_length ||
          isStopWord normalized options.stop_words then keywords
      else if keywords.contains normalized then keywords
      else keywords ++ [normalized])
    []

/-- A function recorded by the code indexer (`FunctionInfo`, name field only). -/
structure FunctionInfo where
  name : Str

/-- A class recorded by the code indexer (`ClassInfo`, name field only). -/
structure ClassInfo where
  name : Str

/-- The part of `FileInfo` that `extractSearchableTerms` reads. -/
structure FileInfo where
  functions : List FunctionInfo
  classes : List ClassInfo
  includes : List Str

/-- Helper shared by the three loops of `extractSearchableTerms`: split a raw
name into words, normalize them, and append those long enough and new. -/
def addTerms (options : AnalysisOptions) (terms : List Str) (raw : Str) : List Str :=
  (splitIntoWords raw).foldl
    (fun ts word =>
      let normalized := normalizeKeyword word
      if options.min_keyword_length ≤ normalized.length && !(ts.contains normalized)
      then ts ++ [normalized] else ts)
    terms

/-- `PromptAnalyzer::extractSearchableTerms`. -/
def extractSearchableTerms (file_info : FileInfo) (options : AnalysisOptions) :
    List Str :=
  let t1 := if options.include_function_names then
    (file_info.functions.map FunctionInfo.name).foldl (addTerms options) [] else []
  let t2 := if options.include_class_names then
    (file_info.classes.map ClassInfo.name).foldl (addTerms options) t1 else t1
  if options.include_includes then
    file_info.includes.foldl (addTerms options) t2 else t2

/-- `std::string::find(pat) != npos`: `pat` occurs as a substring of `hay`. -/
def hasSub (hay pat : Str) : Bool :=
  if List.isPrefixOf pat hay then true
  else match hay with
    | [] => false
    | _ :: t => hasSub t pat

/-- `PromptAnalyzer::calculateExactMatchScore`: each prompt keyword counted at
most once (the inner loop breaks at the first equal file term). -/
def calculateExactMatchScore (prompt_keywords file_terms : List Str) : ℚ :=
  if prompt_keywords = [] ∨ file_terms = [] then 0
  else (prompt_keywords.countP
      (fun k => file_terms.any (fun t => k == t)) : ℚ) / prompt_keywords.length

/-- `PromptAnalyzer::calculatePartialMatchScore`: substring containment in
either direction, each prompt keyword counted at most once. -/
def calculatePartialMatchScore (prompt_keywords file_terms : List Str) : ℚ :=
  if prompt_keywords = [] ∨ file_terms = [] then 0
  else (prompt_keywords.countP
      (fun k => file_terms.any (fun t => hasSub k t || hasSub t k)) : ℚ) /
    prompt_keywords.length

/-- `PromptAnalyzer::calculateContainsMatchScore`: prompt keywords of length at
least 3 contained in a file term, each counted at most once. -/
def calculateContainsMatchScore (prompt_keywords file_terms : List Str) : ℚ :=
  if prompt_keywords = [] ∨ file_terms = [] then 0
  else (prompt_keywords.countP
      (fun k => file_terms.any (fun t => decide (3 ≤ k.length) && hasSub t k)) : ℚ) /
    prompt_keywords.length

/-- `PromptAnalyzer::calculateKeywordMatch`: weighted mix of the three partial
scores, divided by 2.2 and clamped to 1.0. -/
def calculateKeywordMatch (prompt_keywords file_terms : List Str) : ℚ :=
  if prompt_keywords = [] ∨ file_terms = [] then 0
  else
    let exact_score := calculateExactMatchScore prompt_keywords file_terms
    let partial_score := calculatePartialMatchScore prompt_keywords file_terms
    let contains_score := calculateContainsMatchScore prompt_keywords file_terms
    min ((exact_score * 1 + partial_score * (7/10) + contains_score * (1/2)) / (11/5)) 1

/-- `RelevanceScore` (the `matched_keywords` explanation list is elided; the
claims only concern `score` and `reason`). -/
structure RelevanceScore where
  score : ℚ
  reason : Str

/-- `PromptAnalyzer::meetsRelevanceThreshold`. -/
def meetsRelevanceThreshold (score : RelevanceScore) (options : AnalysisOptions) :
    Bool :=
  options.relevance_threshold ≤ score.score

/-- The pure part of `PromptAnalyzer::analyzeRelevance`, once
`CodeIndexer::indexFile` has produced a `FileInfo` (the indexer reads the
filesystem, an external concern; an indexing failure is the `.none` case of
the caller). -/
def analyzeRelevanceInfo (prompt : Str) (file_info : FileInfo)
    (options : AnalysisOptions) : RelevanceScore :=
  let prompt_keywords := extractKeywords prompt options
  if prompt_keywords = [] then
    { score := 0, reason := "No valid keywords found in prompt".toList }
  else
    let file_terms := extractSearchableTerms file_info options
    if file_terms = [] then
      { score := 0, reason := "No searchable terms found in file".toList }
    else
      let s := calculateKeywordMatch prompt_keywords file_terms
      { score := s
        reason :=
          if 8/10 ≤ s then "High relevance: strong keyword matches found".toList
          else if 5/10 ≤ s then "Medium relevance: some keyword matches found".toList
          else if 3/10 ≤ s then "Low relevance: weak keyword matches found".toList
          else "No relevance: no significant keyword matches".toList }

end indexer

namespace llm

open indexer

/-- `std::to_string` on a non-negative integer. -/
def natStr (n : Nat) : Str :=
  Nat.toDigits 10 n

/-- `FileInclusion` (offsets are byte positions in the original prompt). -/
structure FileInclusion where
  file_path : Str
  start_position : Nat
  end_position : Nat
  full_match : Str
deriving DecidableEq

/-- The literal directive marker of `INCLUSION_PATTERN`. -/
def atFileTag : Str := "@file".toList

/-- The `std::sregex_iterator` scan for `@file\s+([^\s\n]+)`: at each position
try the pattern (the marker, one or more whitespace characters, one or more
non-whitespace characters, both runs maximal since the classes are disjoint);
on a match continue after it, otherwise advance one character.  The fuel
argument makes the recursion structural; `extractFileInclusions` supplies
more fuel than the scan can consume. -/
def scanInclusions : Nat → Str → Nat → List FileInclusion
  | 0, _, _ => []
  | _, [], _ => []
  | fuel + 1, c :: rest, off =>
    let s := c :: rest
    if atFileTag.isPrefixOf s then
      let after := s.drop 5
      let ws := (after.takeWhile isWsA).length
      let path := (after.drop ws).takeWhile (fun ch => !isWsA ch)
      if 0 < ws ∧ path ≠ [] then
        let len := 5 + ws + path.length
        { file_path := path, start_position := off,
          end_position := off + len, full_match := s.take len }
          :: scanInclusions fuel (s.drop len) (off + len)
      else scanInclusions fuel rest (off + 1)
    else scanInclusions fuel rest (off + 1)

/-- `ContextBuilder::extractFileInclusions`. -/
def extractFileInclusions (prompt : Str) : List FileInclusion :=
  scanInclusions (prompt.length + 1) prompt 0

/-- `ContextOptions` (defaults from `context_builder.h`; the exclude-pattern
glob matcher and the memory options live behind the environment). -/
structure ContextOptions where
  max_context_size : Nat := 8192
  include_line_numbers : Bool := true
  file_header_format : Str := "// File: {path}\n".toList
  truncate_large_files : Bool := true
  enable_intelligent_selection : Bool := true
  analysis_options : AnalysisOptions := defaultAnalysisOptions
  show_relevance_info : Bool := false

/-- The filesystem/indexer collaborators that `ContextBuilder` consults.
`resolve` is `resolvePath` (join with the project root and
`weakly_canonical`), `allowed` is `isPathAllowed` against the project root
(modelled separately as `CLion.llm.isPathAllowed`), `excluded` is
`shouldExcludeFile` with the option's glob patterns, `readFile` is
`FileUtils::readFile`, `indexOf` is `CodeIndexer::indexFile` (`none` when it
throws), `summaryOf` is `PromptAnalyzer::generateSummary` (which catches its
own errors). -/
structure FsEnv where
  resolve : Str → Str
  allowed : Str → Bool
  excluded : Str → Bool
  readFile : Str → Option Str
  indexOf : Str → Option FileInfo
  summaryOf : Str → Str

/-- `std::string::replace(pos, len, r)`. -/
def strReplace (s : Str) (pos len : Nat) (r : Str) : Str :=
  s.take pos ++ r ++ s.drop (pos + len)

/-- The first occurrence of `pat` in `hay` (`std::string::find`). -/
def findSubPos : Str → Str → Option Nat
  | hay, pat =>
    if List.isPrefixOf pat hay then some 0
    else match hay with
      | [] => none
      | _ :: t => (findSubPos t pat).map (· + 1)

/-- Substitution of `{path}` in the configured header format. -/
def applyHeader (fmt path : Str) : Str :=
  match findSubPos fmt "{path}".toList with
  | none => fmt
  | some pos => strReplace fmt pos 6 path

/-- The lines of a string as `std::getline` delivers them (the final segment
after the last newline is dropped when empty). -/
def linesOf (content : Str) : List Str :=
  if content = [] then []
  else
    let parts := content.splitOn '\n'
    if content.getLast? = some '\n' then parts.dropLast else parts

/-- One line of numbered output: `to_string(n) + " | " + line + "\n"`. -/
def numLine (n : Nat) (line : Str) : Str :=
  natStr n ++ " | ".toList ++ line ++ ['\n']

/-- `ContextBuilder::estimateTokenCount`: `(len + 3) / 4` estimated tokens. -/
def estimateTokenCount (text : Str) : Nat :=
  (text.length + 3) / 4

/-- `ContextBuilder::truncateFile`. -/
def truncateFile (content : Str) (max_size : Nat) (file_path : Str) : Str :=
  let lines := linesOf content
  let total_lines := lines.length
  let keep_lines := max_size / 50
  if total_lines ≤ keep_lines then content
  else
    let start_lines := keep_lines / 2
    let end_lines := keep_lines - start_lines
    ("// File truncated: showing ".toList ++ natStr keep_lines ++
      " of ".toList ++ natStr total_lines ++ " lines\n".toList) ++
    ("// File: ".toList ++ file_path ++ "\n\n".toList) ++
    ((List.range start_lines).map (fun i => numLine (i + 1) (lines.getD i []))).flatten ++
    ("\n// ... ".toList ++ natStr (total_lines - keep_lines) ++
      " lines omitted ...\n\n".toList) ++
    ((List.range' (total_lines - end_lines) end_lines).map
      (fun i => numLine (i + 1) (lines.getD i []))).flatten

/-- `ContextBuilder::readFileWithFormatting` (`none` models the
`FileException` thrown when the file cannot be read). -/
def readFileWithFormatting (env : FsEnv) (opts : ContextOptions) (path : Str) :
    Option Str :=
  (env.readFile path).map fun content =>
    let header := applyHeader opts.file_header_format path
    if opts.include_line_numbers then
      header ++ ((linesOf content).enum.map (fun p => numLine (p.1 + 1) p.2)).flatten
    else
      header ++ content ++
        (if content ≠ [] ∧ content.getLast? ≠ some '\n' then ['\n'] else [])

/-- The inline error comment for a sandbox violation. -/
def errOutside (file_path : Str) : Str :=
  "// Error: File '".toList ++ file_path ++
    "' is outside project directory or access denied".toList

/-- The inline warning comment for an excluded file. -/
def warnExcluded (file_path : Str) : Str :=
  "// Warning: File '".toList ++ file_path ++ "' matches exclude pattern".toList

/-- The inline error comment produced by the `catch` in the inclusion loops. -/
def errReading (file_path what : Str) : Str :=
  "// Error reading file '".toList ++ file_path ++ "': ".toList ++ what

/-- The text substituted for one inclusion by `processInclusions` (each loop
iteration performs exactly one `result.replace`, with this replacement). -/
def inclusionReplacement (env : FsEnv) (opts : ContextOptions)
    (inc : FileInclusion) : Str :=
  let resolved := env.resolve inc.file_path
  if env.allowed resolved = false then errOutside inc.file_path
  else if env.excluded resolved then warnExcluded inc.file_path
  else match readFileWithFormatting env opts resolved with
    | none => errReading inc.file_path ("Cannot read file: ".toList ++ resolved)
    | some file_content =>
      if opts.truncate_large_files ∧
          opts.max_context_size < estimateTokenCount file_content then
        truncateFile file_content opts.max_context_size resolved
      else file_content

/-- The descending-start comparator of the `std::sort` call (starts of
distinct matches are distinct, so `≥` and the source's `>` sort alike). -/
def descStart (a b : FileInclusion) : Prop :=
  b.start_position ≤ a.start_position

instance : DecidableRel descStart := fun _ _ => Nat.decLe _ _

/-- `ContextBuilder::processInclusions`: extract, sort by descending start
offset, replace each directive in place. -/
def processInclusions (env : FsEnv) (opts : ContextOptions) (prompt : Str) :
    Str :=
  ((extractFileInclusions prompt).insertionSort descStart).foldl
    (fun result inc =>
      strReplace result inc.start_position inc.full_match.length
        (inclusionReplacement env opts inc))
    prompt

/-- `PromptAnalyzer::analyzeRelevance` against the filesystem: index the file,
then score; an indexing failure is caught inside and scored 0. -/
def analyzeRelevanceFs (env : FsEnv) (prompt path : Str)
    (options : AnalysisOptions) : RelevanceScore :=
  match env.indexOf path with
  | none => { score := 0, reason := "Error during analysis".toList }
  | some info => analyzeRelevanceInfo prompt info options

/-- `PromptAnalyzer::shouldIncludeFullFile` (note: default `AnalysisOptions`,
not the caller's). -/
def shouldIncludeFullFile (env : FsEnv) (prompt path : Str) : Bool :=
  meetsRelevanceThreshold (analyzeRelevanceFs env prompt path defaultAnalysisOptions)
    defaultAnalysisOptions

/-- `ContextBuilder::formatRelevanceInfo` (the two-decimal score rendering is
approximated by hundredths rounding; no theorem depends on it). -/
def formatRelevanceInfo (score : RelevanceScore) (file_path : Str) : Str :=
  "// Relevance Analysis for: ".toList ++ file_path ++ "\n// Score: 0.".toList ++
    natStr (score.score * 100 + 1/2).floor.toNat ++ " - ".toList ++
    score.reason ++ ['\n']

/-- `ContextBuilder::analyzeFileRelevance` (`Except.error` models the
`FileException` escaping to the caller's `catch`, carrying `e.what()`). -/
def analyzeFileRelevance (env : FsEnv) (opts : ContextOptions)
    (prompt path : Str) : Except Str Str :=
  let score := analyzeRelevanceFs env prompt path opts.analysis_options
  if shouldIncludeFullFile env prompt path then
    match readFileWithFormatting env opts path with
    | none => .error ("Cannot read file: ".toList ++ path)
    | some content =>
      let content :=
        if opts.truncate_large_files ∧
            opts.max_context_size < estimateTokenCount content then
          truncateFile content opts.max_context_size path
        else content
      .ok (if opts.show_relevance_info then
        formatRelevanceInfo score path ++ ['\n'] ++ content else content)
  else
    let summary := env.summaryOf path
    let content := if opts.show_relevance_info then
      formatRelevanceInfo score path ++ ['\n'] ++ summary else summary
    .ok (content ++
      "\n// Note: File summary shown instead of full content due to low relevance score.\n".toList ++
      "// Use @file ".toList ++ path ++ " --force to include full file if needed.\n".toList)

/-- The text substituted for one inclusion by
`processInclusionsWithIntelligence`. -/
def inclusionReplacementIntel (env : FsEnv) (opts : ContextOptions)
    (prompt : Str) (inc : FileInclusion) : Str :=
  let resolved := env.resolve inc.file_path
  if env.allowed resolved = false then errOutside inc.file_path
  else if env.excluded resolved then warnExcluded inc.file_path
  else match analyzeFileRelevance env opts prompt resolved with
    | .error what => errReading inc.file_path what
    | .ok content => content

/-- `ContextBuilder::processInclusionsWithIntelligence`. -/
def processInclusionsWithIntelligence (env : FsEnv) (opts : ContextOptions)
    (prompt : Str) : Str :=
  ((extractFileInclusions prompt).insertionSort descStart).foldl
    (fun result inc =>
      strReplace result inc.start_position inc.full_match.length
        (inclusionReplacementIntel env opts prompt inc))
    prompt

/-- `ContextBuilder::buildContext`. -/
def buildContext (env : FsEnv) (opts : ContextOptions) (prompt : Str) : Str :=
  if opts.enable_intelligent_selection then
    processInclusionsWithIntelligence env opts prompt
  else processInclusions env opts prompt

/-- Strip the longest common prefix of two canonical segment paths. -/
def stripCommon : List String → List String → List String × List String
  | b :: bs, t :: ts => if b = t then stripCommon bs ts else (b :: bs, t :: ts)
  | bs, ts => (bs, ts)

/-- Lexical `std::filesystem::relative` on canonical absolute segment paths:
one `..` per remaining base segment, then the target remainder (`.` when
both remainders are empty). -/
def relSegs (base target : List String) : List String :=
  let p := stripCommon base target
  let r := p.1.map (fun _ => "..") ++ p.2
  if r = [] then ["."] else r

/-- Render a segment path the way `std::filesystem::path::string()` does. -/
def joinSegs : List String → Str
  | [] => []
  | [s] => s.toList
  | s :: rest => s.toList ++ ['/'] ++ joinSegs rest

/-- The filesystem as `isPathAllowed` observes it: the set of existing
regular files, by canonical absolute segment path. -/
structure PathFs where
  regularFiles : List (List String)

/-- `ContextBuilder::isPathAllowed`: reject when the relative path's first two
characters are `..`, otherwise require an existing regular file. -/
def isPathAllowed (fs : PathFs) (path project_root : List String) : Bool :=
  let rel := joinSegs (relSegs project_root path)
  if rel.take 2 = ['.', '.'] then false
  else fs.regularFiles.contains path

/-- `HistoryEntry` (`session.h`). -/
structure HistoryEntry where
  role : String
  content : String
  timestamp : String
deriving DecidableEq

/-- `Session` (`session.h`).  `tags` stands for the `unordered_set` (no
duplicates), `metadata` for the `unordered_map` (no duplicate keys). -/
structure Session where
  id : String
  entries : List HistoryEntry
  created_at : String
  updated_at : String
  name : String
  description : String
  tags : List String
  parent_session_id : String
  child_session_ids : List String
  metadata : List (String × String)
  checkpoint_ids : List String
  memory_node_ids : List String
  total_tokens : Nat
  is_compressed : Bool
  last_checkpoint_id : String
deriving DecidableEq

/-- A `Session` with the constructor defaults of `session.h` (empty strings,
empty containers, zero tokens). -/
def emptySession (id created updated : String) : Session where
  id := id
  entries := []
  created_at := created
  updated_at := updated
  name := ""
  description := ""
  tags := []
  parent_session_id := ""
  child_session_ids := []
  metadata := []
  checkpoint_ids := []
  memory_node_ids := []
  total_tokens := 0
  is_compressed := false
  last_checkpoint_id := ""

/-- An `nlohmann::json` value. -/
inductive JVal where
  | jnull
  | jstr (s : String)
  | jnum (n : Nat)
  | jbool (b : Bool)
  | jarr (xs : List JVal)
  | jobj (fields : List (String × JVal))

/-- Key lookup in a JSON object (`operator[]` on a `const json`). -/
def jget (j : JVal) (key : String) : Option JVal :=
  match j with
  | .jobj fields => fields.lookup key
  | _ => none

/-- `j.value(key, default)` for strings; `none` models the type-error throw. -/
def jvalueStr (j : JVal) (key : String) (dflt : String) : Option String :=
  match jget j key with
  | none => some dflt
  | some (.jstr s) => some s
  | some _ => none

/-- `j.value(key, default)` for integers. -/
def jvalueNat (j : JVal) (key : String) (dflt : Nat) : Option Nat :=
  match jget j key with
  | none => some dflt
  | some (.jnum n) => some n
  | some _ => none

/-- `j.value(key, default)` for booleans. -/
def jvalueBool (j : JVal) (key : String) (dflt : Bool) : Option Bool :=
  match jget j key with
  | none => some dflt
  | some (.jbool b) => some b
  | some _ => none

/-- `j[key].get<std::string>()`; `none` models the throw on a missing key or
wrong type. -/
def jgetStr (j : JVal) (key : String) : Option String :=
  match jget j key with
  | some (.jstr s) => some s
  | _ => none


/-- One history entry as `saveSession` serialises it. -/
def entryToJson (e : HistoryEntry) : JVal :=
  .jobj [("role", .jstr e.role), ("content", .jstr e.content),
    ("timestamp", .jstr e.timestamp)]

/-- The JSON document `SessionManager::saveSession` writes (`j["metadata"]`
stays the default-constructed `null` when the map is empty). -/
def sessionToJson (s : Session) : JVal :=
  .jobj
    [("id", .jstr s.id),
     ("created_at", .jstr s.created_at),
     ("updated_at", .jstr s.updated_at),
     ("name", .jstr s.name),
     ("description", .jstr s.description),
     ("parent_session_id", .jstr s.parent_session_id),
     ("total_tokens", .jnum s.total_tokens),
     ("is_compressed", .jbool s.is_compressed),
     ("last_checkpoint_id", .jstr s.last_checkpoint_id),
     ("entries", .jarr (s.entries.map entryToJson)),
     ("child_session_ids", .jarr (s.child_session_ids.map .jstr)),
     ("tags", .jarr (s.tags.map .jstr)),
     ("checkpoint_ids", .jarr (s.checkpoint_ids.map .jstr)),
     ("memory_node_ids", .jarr (s.memory_node_ids.map .jstr)),
     ("metadata", if s.metadata.isEmpty then .jnull
       else .jobj (s.metadata.map (fun p => (p.1, .jstr p.2))))]

/-- One entry as `loadSession` parses it (throws on missing/ill-typed keys). -/
def jsonToEntry (j : JVal) : Option HistoryEntry :=
  (jgetStr j "role").bind fun role =>
  (jgetStr j "content").bind fun content =>
  (jgetStr j "timestamp").bind fun timestamp =>
  some { role := role, content := content, timestamp := timestamp }

/-- A string element of a JSON array (`get<std::string>()`). -/
def jasStr : JVal → Option String
  | .jstr s => some s
  | _ => none

/-- `unordered_set::insert` over a run of elements: appends the ones not yet
present. -/
def insertTag (tags : List String) (t : String) : List String :=
  if t ∈ tags then tags else tags ++ [t]

/-- `unordered_map::operator[]=` over a run of pairs: replaces the value of a
present key, appends a new key. -/
def insertMeta (m : List (String × String)) (kv : String × String) :
    List (String × String) :=
  if kv.1 ∈ m.map Prod.fst then
    m.map (fun p => if p.1 = kv.1 then (p.1, kv.2) else p)
  else m ++ [kv]

/-- The element loop over a JSON array: parse each element in order, abort
the whole load when one element's conversion throws. -/
def mapMOpt (f : JVal → Option α) : List JVal → Option (List α)
  | [] => some []
  | x :: t => (f x).bind fun y => (mapMOpt f t).map (fun ys => y :: ys)

/-- An optional array-of-X field of `loadSession`: skipped (default `d`) when
absent or not an array, else parsed elementwise with `f` (a throw anywhere
aborts the load). -/
def jarrField (j : JVal) (key : String) (f : JVal → Option α) (d : List α) :
    Option (List α) :=
  match jget j key with
  | some (.jarr xs) => mapMOpt f xs
  | some _ => some d
  | none => some d

/-- The metadata block of `loadSession`: read when present and an object,
ignored otherwise (`items()` on each key/value pair). -/
def jmetaField (j : JVal) : List (String × String) :=
  match jget j "metadata" with
  | some (.jobj fields) =>
    fields.filterMap (fun p => (jasStr p.2).map (fun v => (p.1, v)))
  | _ => []

/-- The body of `SessionManager::loadSession` once the file's JSON document is
in hand. -/
def jsonToSession (j : JVal) : Option Session :=
  (jgetStr j "id").bind fun id =>
  (jgetStr j "created_at").bind fun created =>
  (jgetStr j "updated_at").bind fun updated =>
  (jvalueStr j "name" "").bind fun name =>
  (jvalueStr j "description" "").bind fun description =>
  (jvalueStr j "parent_session_id" "").bind fun parent =>
  (jvalueNat j "total_tokens" 0).bind fun total_tokens =>
  (jvalueBool j "is_compressed" false).bind fun is_compressed =>
  (jvalueStr j "last_checkpoint_id" "").bind fun last_checkpoint =>
  (jarrField j "entries" jsonToEntry []).bind fun entries =>
  (jarrField j "child_session_ids" jasStr []).bind fun child_ids =>
  (jarrField j "tags" jasStr []).bind fun tagList =>
  (jarrField j "checkpoint_ids" jasStr []).bind fun checkpoint_ids =>
  (jarrField j "memory_node_ids" jasStr []).bind fun memory_node_ids =>
  some (Session.mk id entries created updated name description
    (tagList.foldl insertTag []) parent child_ids
    ((jmetaField j).foldl insertMeta [])
    checkpoint_ids memory_node_ids total_tokens is_compressed last_checkpoint)

/-- The session directory: one JSON document per session id. -/
abbrev Store := List (String × JVal)

/-- Remove every file of the given session id. -/
def storeErase : Store → String → Store
  | [], _ => []
  | (k, v) :: rest, id =>
    if k = id then storeErase rest id else (k, v) :: storeErase rest id

/-- Write (create or overwrite) the file of one session id.  The directory is
unordered, so overwriting is represented as remove-then-append; only
`storeRead` observes the store. -/
def storeWrite (st : Store) (id : String) (j : JVal) : Store :=
  storeErase st id ++ [(id, j)]

/-- Read the file of one session id (`none`: no such file). -/
def storeRead : Store → String → Option JVal
  | [], _ => none
  | (k, v) :: rest, id => if k = id then some v else storeRead rest id

/-- `SessionManager::saveSession` (the write itself always succeeds in the
model; C++ additionally reports stream failures). -/
def saveSession (st : Store) (s : Session) : Store :=
  storeWrite st s.id (sessionToJson s)

/-- `SessionManager::loadSession`. -/
def loadSession (st : Store) (session_id : String) : Option Session :=
  (storeRead st session_id).bind jsonToSession

/-- `SessionManager::sessionExists`. -/
def sessionExists (st : Store) (session_id : String) : Bool :=
  (storeRead st session_id).isSome

/-- `SessionManager::deleteSession`: removes the session's own file, and
nothing else. -/
def deleteSession (st : Store) (session_id : String) : Store :=
  storeErase st session_id

/-- `SessionManager::addEntryToSession` (`ts` is `getCurrentTimestamp()`). -/
def addEntryToSession (st : Store) (session_id role content ts : String) :
    Store × Bool :=
  match loadSession st session_id with
  | none => (st, false)
  | some s =>
    let entry : HistoryEntry := { role := role, content := content, timestamp := ts }
    (saveSession st
      { s with entries := s.entries ++ [entry], updated_at := ts }, true)

/-- `SessionManager::createNewSession` (`fresh` is `createSessionId()`, `ts`
the current timestamp). -/
def createNewSession (st : Store) (fresh ts : String) : Store × String :=
  (saveSession st (emptySession fresh ts ts), fresh)

/-- `SessionManager::setParentSession` (`ts` is `getCurrentTimestamp()`):
load both records, scrub the child from its old parent's list, then update
child and new parent. -/
def setParentSession (st : Store) (session_id parent_id ts : String) :
    Store × Bool :=
  match loadSession st session_id, loadSession st parent_id with
  | some s, some p =>
    let st1 :=
      if s.parent_session_id ≠ "" then
        match loadSession st s.parent_session_id with
        | some old_parent =>
          saveSession st
            { old_parent with child_session_ids :=
                old_parent.child_session_ids.filter (· ≠ session_id) }
        | none => st
      else st
    let s' := { s with parent_session_id := parent_id, updated_at := ts }
    let p' := { p with
      child_session_ids := p.child_session_ids ++ [session_id]
      updated_at := ts }
    (saveSession (saveSession st1 s') p', true)
  | _, _ => (st, false)

/-- One rootward step of `getSessionHierarchy`: load the session, hand back
its `parent_session_id`.  Iterated to state acyclicity. -/
def pIter (st : Store) : Nat → String → Option String
  | 0, cur => some cur
  | k + 1, cur =>
    match loadSession st cur with
    | none => none
    | some s => pIter st k s.parent_session_id

/-- The `while (!current_id.empty())` loop of `getSessionHierarchy`.  The fuel
argument models the unbounded loop: `false` in the result means the fuel ran
out, which (theorem `claim_C9_hierarchy`) cannot happen on an acyclic store
when the fuel exceeds the session count. -/
def walkHier (st : Store) : Nat → String → List String → List String × Bool
  | 0, _, acc => (acc, false)
  | fuel + 1, cur, acc =>
    if cur = "" then (acc, true)
    else
      let acc' := acc ++ [cur]
      match loadSession st cur with
      | none => (acc', true)
      | some s => walkHier st fuel s.parent_session_id acc'

/-- `SessionManager::getSessionHierarchy`: walk rootward, then reverse. -/
def getSessionHierarchy (st : Store) (session_id : String) :
    List String × Bool :=
  let r := walkHier st (st.length + 2) session_id []
  (r.1.reverse, r.2)

/-- `LLMResponse` (`llm_client.h`; `sources`, `http_status_code` and
`raw_response` elided — no claim observes them). -/
structure LLMResponse where
  content : String
  tokens_used : Nat
  success : Bool
  error_message : String
deriving DecidableEq

/-- `LLMConfig` (`llm_client.h`; the provider enum and endpoint fields are
not needed by the claims about the token gate). -/
structure LLMConfig where
  api_key : String
  model : String
  timeout_seconds : Nat
  max_tokens : Nat
  temperature : ℚ
  verbose : Bool

/-- `ModelPricing` (`token_counter.h`). -/
structure ModelPricing where
  model_name : String
  provider : String
  input_token_price : ℚ
  output_token_price : ℚ
  max_context_tokens : Nat

/-- The `TokenCounter` collaborator, a black box per the specification:
`countTokens`, `getModelPricing` and the `calculateUsage` total cost. -/
structure TokenOracle where
  countTokens : String → Nat
  pricingOf : String → ModelPricing
  usageCost : String → Nat → ℚ

/-- `LLMClient::RequestAnalysis`. -/
structure RequestAnalysis where
  input_tokens : Nat
  estimated_output_tokens : Nat
  estimated_cost : ℚ
  model : String
  within_limits : Bool

/-- `LLMClient::analyzeRequest`. -/
def analyzeRequest (tc : TokenOracle) (cfg : LLMConfig)
    (prompt system_instruction : String) (max_output_tokens : Nat) :
    RequestAnalysis :=
  let full_input := if system_instruction ≠ "" then
    system_instruction ++ "\n\n" ++ prompt else prompt
  let input_tokens := tc.countTokens full_input
  let estimated_output_tokens := if 0 < max_output_tokens then max_output_tokens
    else min (input_tokens / 2) cfg.max_tokens
  let pricing := tc.pricingOf cfg.model
  { input_tokens := input_tokens
    estimated_output_tokens := estimated_output_tokens
    estimated_cost := tc.usageCost full_input estimated_output_tokens
    model := cfg.model
    within_limits :=
      input_tokens + estimated_output_tokens ≤ pricing.max_context_tokens }

/-- `LLMClient::userConfirmsRequest`: auto-confirm in verbose mode, otherwise
accept a reply starting with `y` or `Y`. -/
def userConfirmsRequest (cfg : LLMConfig) (reply : String) : Bool :=
  if cfg.verbose then true
  else match reply.toList with
    | [] => false
    | c :: _ => c = 'y' || c = 'Y'

/-- What one `sendRequest` call produced: its response, and whether the HTTP
request was performed at all. -/
structure SendResult where
  response : LLMResponse
  network_called : Bool
deriving DecidableEq

/-- `LLMClient::sendRequest`.  `net` is the response the HTTP round trip plus
provider parsing would deliver (transport, HTTP and provider errors
included); `reply` is the interactive confirmation input. -/
def sendRequest (tc : TokenOracle) (cfg : LLMConfig) (initialized : Bool)
    (reply : String) (net : LLMResponse) (prompt system_instruction : String) :
    SendResult :=
  let analysis := analyzeRequest tc cfg prompt system_instruction 0
  if !analysis.within_limits && !userConfirmsRequest cfg reply then
    { response :=
        { content := "", tokens_used := 0, success := false
          error_message := "Request cancelled by user due to cost/size concerns" }
      network_called := false }
  else if !initialized then
    { response :=
        { content := "", tokens_used := 0, success := false
          error_message := "LLMClient not initialized" }
      network_called := false }
  else
    { response := net, network_called := true }

/-- What one `sendRequestWithSession` call produced: the response, the session
store afterwards, the client's current-session id, whether the network was
reached, and the conversation message list that was put in the payload. -/
structure SessionDispatchResult where
  response : LLMResponse
  store : Store
  current_session : String
  network_called : Bool
  messages : List (String × String)

/-- The body of `LLMClient::sendRequestWithSession` once the target session id
is fixed: load the history, build the message list, persist the user message,
perform the request, and persist the assistant reply only on success. -/
def sessionDispatchCore (st : Store) (current : String) (net : LLMResponse)
    (ts_user ts_assistant : String) (prompt target system_instruction : String) :
    SessionDispatchResult :=
  match loadSession st target with
  | none =>
    { response :=
        { content := "", tokens_used := 0, success := false
          error_message := "Failed to load session: " ++ target }
      store := st, current_session := current, network_called := false
      messages := [] }
  | some session =>
    let messages :=
      (if system_instruction ≠ "" then [("system", system_instruction)] else [])
        ++ session.entries.map (fun e => (e.role, e.content))
        ++ [("user", prompt)]
    let st1 := (addEntryToSession st target "user" prompt ts_user).1
    if net.success && net.content ≠ "" then
      { response := net
        store := (addEntryToSession st1 target "assistant" net.content ts_assistant).1
        current_session := current, network_called := true
        messages := messages }
    else
      { response := net, store := st1, current_session := current
        network_called := true, messages := messages }

/-- `LLMClient::sendRequestWithSession`: explicit id, else the current
session, else a freshly created one (`fresh`/`ts_create` stand for
`createSessionId()` and the current timestamp). -/
def sendRequestWithSession (st : Store) (current : String) (net : LLMResponse)
    (fresh ts_create ts_user ts_assistant : String)
    (prompt session_id system_instruction : String) : SessionDispatchResult :=
  let target := if session_id = "" then current else session_id
  if target = "" then
    if fresh = "" then
      { response :=
          { content := "", tokens_used := 0, success := false
            error_message := "Failed to create session" }
        store := st, current_session := current, network_called := false
        messages := [] }
    else
      let r := createNewSession st fresh ts_create
      sessionDispatchCore r.1 r.2 net ts_user ts_assistant prompt r.2
        system_instruction
  else sessionDispatchCore st current net ts_user ts_assistant prompt target
    system_instruction

/-- `LLMClient::deleteSession`: delegate to `SessionManager::deleteSession`,
and clear the current-session id when it named the deleted session. -/
def clientDeleteSession (st : Store) (current : String) (session_id : String) :
    Store × String × Bool :=
  let result := sessionExists st session_id
  let st' := deleteSession st session_id
  if result then (st', if current = session_id then "" else current, true)
  else (st', current, false)

/-- A well-formed session directory: every stored record carries the id it is
filed under (maintained by `saveSession`, which writes to the file named by
`session.id`). -/
def WFStore (st : Store) : Prop :=
  ∀ k s, loadSession st k = some s → s.id = k

/-- A two-session directory: parent `P` lists child `C`, child `C` points back
at `P`.  Exercises the deletion claims. -/
def c4Store : Store :=
  saveSession
    (saveSession []
      (Session.mk "P" [] "c0" "u0" "" "" [] "" ["C"] [] [] [] 0 false ""))
    (Session.mk "C" [] "c0" "u0" "" "" [] "P" [] [] [] [] 0 false "")

/-- A concrete token-counter collaborator for the token-gate claims: every
input costs 100 tokens against a 10-token context window. -/
def c3Oracle : TokenOracle where
  countTokens := fun _ => 100
  pricingOf := fun _ => ModelPricing.mk "m" "test" 0 0 10
  usageCost := fun _ _ => 0

/-- A concrete non-verbose client configuration. -/
def c3Config : LLMConfig where
  api_key := "key"
  model := "m"
  timeout_seconds := 30
  max_tokens := 4096
  temperature := 1/10
  verbose := false

/-- A concrete successful network response. -/
def okNet : LLMResponse where
  content := "fine"
  tokens_used := 7
  success := true
  error_message := ""

/-- Three root sessions `A`, `B`, `C` with no links, for the hierarchy
claims. -/
def c5Store : Store :=
  saveSession (saveSession (saveSession [] (emptySession "A" "c0" "u0"))
    (emptySession "B" "c0" "u0")) (emptySession "C" "c0" "u0")

/-- A trivial filesystem environment for closed instances of the
context-assembly claims. -/
def trivEnv : FsEnv :=
  { resolve := fun p => p
    allowed := fun _ => false
    excluded := fun _ => false
    readFile := fun _ => none
    indexOf := fun _ => none
    summaryOf := fun _ => [] }

/-- Prompt fixture for the relevance-score claim. -/
def c6Prompt : Str := "alpha beta".toList

/-- File fixture whose searchable terms equal `c6Prompt`'s keywords. -/
def c6File : FileInfo :=
  { functions := [{ name := "alpha".toList }, { name := "beta".toList }]
    classes := []
    includes := [] }

/-! ### Store lemmas -/

theorem storeRead_append (l₁ l₂ : Store) (k : String) :
    storeRead (l₁ ++ l₂) k =
      ((storeRead l₁ k).orElse fun _ => storeRead l₂ k) := by
  induction l₁ with
  | nil => rfl
  | cons p t ih =>
    obtain ⟨a, v⟩ := p
    by_cases h : a = k
    · simp [storeRead, h]
    · simp [storeRead, h, ih]

theorem storeRead_erase_ne (st : Store) (id k : String) (h : k ≠ id) :
    storeRead (storeErase st id) k = storeRead st k := by
  have h2 : id ≠ k := fun hh => h hh.symm
  induction st with
  | nil => rfl
  | cons p t ih =>
    obtain ⟨a, v⟩ := p
    by_cases hp : a = id
    · subst hp
      simp [storeErase, storeRead, h2, ih]
    · by_cases hk : a = k
      · subst hk
        simp [storeErase, storeRead, hp]
      · simp [storeErase, storeRead, hp, hk, ih]

theorem storeRead_erase_self (st : Store) (id : String) :
    storeRead (storeErase st id) id = none := by
  induction st with
  | nil => rfl
  | cons p t ih =>
    obtain ⟨a, v⟩ := p
    by_cases hp : a = id
    · simp [storeErase, hp, ih]
    · simp [storeErase, hp, storeRead, ih]

theorem storeRead_write (st : Store) (id k : String) (j : JVal) :
    storeRead (storeWrite st id j) k =
      if k = id then some j else storeRead st k := by
  unfold storeWrite
  rw [storeRead_append]
  by_cases h : k = id
  · subst h
    simp [storeRead_erase_self, storeRead]
  · rw [storeRead_erase_ne st id k h]
    have h2 : id ≠ k := fun hh => h hh.symm
    simp only [storeRead, h2, if_false, if_neg h]
    cases storeRead st k <;> rfl

theorem storeRead_delete (st : Store) (id k : String) :
    storeRead (deleteSession st id) k =
      if k = id then none else storeRead st k := by
  unfold deleteSession
  by_cases h : k = id
  · subst h; simp [storeRead_erase_self]
  · simp [h, storeRead_erase_ne st id k h]

/-! ### The save/load round trip -/

theorem jsonToEntry_entryToJson (e : HistoryEntry) :
    jsonToEntry (entryToJson e) = some e := by
  simp [jsonToEntry, entryToJson, jgetStr, jget, List.lookup]

theorem mapMOpt_entryToJson (l : List HistoryEntry) :
    mapMOpt jsonToEntry (l.map entryToJson) = some l := by
  induction l with
  | nil => rfl
  | cons e t ih => simp [mapMOpt, jsonToEntry_entryToJson, ih]

theorem mapMOpt_jasStr (l : List String) :
    mapMOpt jasStr (l.map JVal.jstr) = some l := by
  induction l with
  | nil => rfl
  | cons x t ih => simp [mapMOpt, jasStr, ih]

theorem foldl_insertTag (l : List String) :
    ∀ acc : List String, l.Nodup → (∀ x ∈ l, x ∉ acc) →
      l.foldl insertTag acc = acc ++ l := by
  induction l with
  | nil => intro acc _ _; simp
  | cons x t ih =>
    intro acc hd ha
    rw [List.foldl_cons]
    have hx : insertTag acc x = acc ++ [x] := by
      unfold insertTag
      rw [if_neg (ha x (List.mem_cons_self x t))]
    have hfresh : ∀ y ∈ t, y ∉ acc ++ [x] := by
      intro y hy
      simp only [List.mem_append, List.mem_singleton]
      rintro (hacc | rfl)
      · exact ha y (List.mem_cons_of_mem x hy) hacc
      · exact (List.nodup_cons.mp hd).1 hy
    rw [hx, ih (acc ++ [x]) (List.Nodup.of_cons hd) hfresh, List.append_assoc]
    rfl

theorem foldl_insertMeta (l : List (String × String)) :
    ∀ acc : List (String × String), (l.map Prod.fst).Nodup →
      (∀ kv ∈ l, kv.1 ∉ acc.map Prod.fst) →
      l.foldl insertMeta acc = acc ++ l := by
  induction l with
  | nil => intro acc _ _; simp
  | cons x t ih =>
    intro acc hd ha
    rw [List.map_cons] at hd
    rw [List.foldl_cons]
    have hx : insertMeta acc x = acc ++ [x] := by
      unfold insertMeta
      rw [if_neg (ha x (List.mem_cons_self x t))]
    have hfresh : ∀ kv ∈ t, kv.1 ∉ (acc ++ [x]).map Prod.fst := by
      intro y hy
      simp only [List.map_append, List.mem_append, List.map_cons,
        List.map_nil, List.mem_singleton]
      rintro (hacc | hx1)
      · exact ha y (List.mem_cons_of_mem x hy) hacc
      · exact (List.nodup_cons.mp hd).1 (hx1 ▸ List.mem_map_of_mem Prod.fst hy)
    rw [hx, ih (acc ++ [x]) (List.Nodup.of_cons hd) hfresh, List.append_assoc]
    rfl

theorem filterMap_metaToJson (l : List (String × String)) :
    (l.map (fun p => (p.1, JVal.jstr p.2))).filterMap
      (fun p => (jasStr p.2).map (fun v => (p.1, v))) = l := by
  induction l with
  | nil => rfl
  | cons x t ih =>
    rw [List.map_cons, List.filterMap_cons]
    show (x.1, x.2) :: (t.map (fun p => (p.1, JVal.jstr p.2))).filterMap
      (fun p => (jasStr p.2).map (fun v => (p.1, v))) = x :: t
    rw [ih]

theorem jget_sessionToJson_metadata (s : Session) :
    jget (sessionToJson s) "metadata" =
      some (if s.metadata.isEmpty then JVal.jnull
        else JVal.jobj (s.metadata.map (fun p => (p.1, JVal.jstr p.2)))) := by
  simp [sessionToJson, jget, List.lookup]

theorem jmetaField_sessionToJson (s : Session) :
    jmetaField (sessionToJson s) = s.metadata := by
  unfold jmetaField
  rw [jget_sessionToJson_metadata]
  cases hm : s.metadata.isEmpty with
  | true =>
    have hnil : s.metadata = [] := by
      cases hm2 : s.metadata with
      | nil => rfl
      | cons a b => rw [hm2] at hm; simp at hm
    rw [hnil]
    rfl
  | false =>
    simp only [Bool.false_eq_true, if_false]
    exact filterMap_metaToJson s.metadata

theorem jgetStr_stj_id (s : Session) :
    jgetStr (sessionToJson s) "id" = some s.id := by
  simp [jgetStr, jget, sessionToJson, List.lookup]

theorem jgetStr_stj_created (s : Session) :
    jgetStr (sessionToJson s) "created_at" = some s.created_at := by
  simp [jgetStr, jget, sessionToJson, List.lookup]

theorem jgetStr_stj_updated (s : Session) :
    jgetStr (sessionToJson s) "updated_at" = some s.updated_at := by
  simp [jgetStr, jget, sessionToJson, List.lookup]

theorem jvalueStr_stj_name (s : Session) :
    jvalueStr (sessionToJson s) "name" "" = some s.name := by
  simp [jvalueStr, jget, sessionToJson, List.lookup]

theorem jvalueStr_stj_description (s : Session) :
    jvalueStr (sessionToJson s) "description" "" = some s.description := by
  simp [jvalueStr, jget, sessionToJson, List.lookup]

theorem jvalueStr_stj_parent (s : Session) :
    jvalueStr (sessionToJson s) "parent_session_id" "" =
      some s.parent_session_id := by
  simp [jvalueStr, jget, sessionToJson, List.lookup]

theorem jvalueNat_stj_tokens (s : Session) :
    jvalueNat (sessionToJson s) "total_tokens" 0 = some s.total_tokens := by
  simp [jvalueNat, jget, sessionToJson, List.lookup]

theorem jvalueBool_stj_compressed (s : Session) :
    jvalueBool (sessionToJson s) "is_compressed" false =
      some s.is_compressed := by
  simp [jvalueBool, jget, sessionToJson, List.lookup]

theorem jvalueStr_stj_lastcp (s : Session) :
    jvalueStr (sessionToJson s) "last_checkpoint_id" "" =
      some s.last_checkpoint_id := by
  simp [jvalueStr, jget, sessionToJson, List.lookup]

theorem jarrField_stj_entries (s : Session) :
    jarrField (sessionToJson s) "entries" jsonToEntry [] = some s.entries := by
  simp [jarrField, jget, sessionToJson, List.lookup, mapMOpt_entryToJson]

theorem jarrField_stj_children (s : Session) :
    jarrField (sessionToJson s) "child_session_ids" jasStr [] =
      some s.child_session_ids := by
  simp [jarrField, jget, sessionToJson, List.lookup, mapMOpt_jasStr]

theorem jarrField_stj_tags (s : Session) :
    jarrField (sessionToJson s) "tags" jasStr [] = some s.tags := by
  simp [jarrField, jget, sessionToJson, List.lookup, mapMOpt_jasStr]

theorem jarrField_stj_checkpoints (s : Session) :
    jarrField (sessionToJson s) "checkpoint_ids" jasStr [] =
      some s.checkpoint_ids := by
  simp [jarrField, jget, sessionToJson, List.lookup, mapMOpt_jasStr]

theorem jarrField_stj_memory (s : Session) :
    jarrField (sessionToJson s) "memory_node_ids" jasStr [] =
      some s.memory_node_ids := by
  simp [jarrField, jget, sessionToJson, List.lookup, mapMOpt_jasStr]

theorem jsonToSession_sessionToJson (s : Session) (ht : s.tags.Nodup)
    (hm : (s.metadata.map Prod.fst).Nodup) :
    jsonToSession (sessionToJson s) = some s := by
  unfold jsonToSession
  simp only [jgetStr_stj_id, jgetStr_stj_created, jgetStr_stj_updated,
    jvalueStr_stj_name, jvalueStr_stj_description, jvalueStr_stj_parent,
    jvalueNat_stj_tokens, jvalueBool_stj_compressed, jvalueStr_stj_lastcp,
    jarrField_stj_entries, jarrField_stj_children, jarrField_stj_tags,
    jarrField_stj_checkpoints, jarrField_stj_memory, Option.some_bind,
    jmetaField_sessionToJson]
  rw [foldl_insertTag s.tags [] ht (by intro x _ h; exact (List.not_mem_nil x) h),
    foldl_insertMeta s.metadata [] hm (by intro kv _ h; simp at h)]
  simp

theorem foldl_insertTag_nodup (l : List String) :
    ∀ acc : List String, acc.Nodup → (l.foldl insertTag acc).Nodup := by
  induction l with
  | nil => intro acc h; exact h
  | cons x t ih =>
    intro acc h
    rw [List.foldl_cons]
    refine ih _ ?step
    unfold insertTag
    by_cases hx : x ∈ acc
    · rw [if_pos hx]; exact h
    · rw [if_neg hx]
      rw [← List.concat_eq_append]
      exact h.concat hx

theorem map_fst_insertMeta (acc : List (String × String))
    (kv : String × String) :
    ((insertMeta acc kv).map Prod.fst) =
      if kv.1 ∈ acc.map Prod.fst then acc.map Prod.fst
      else acc.map Prod.fst ++ [kv.1] := by
  unfold insertMeta
  by_cases hx : kv.1 ∈ acc.map Prod.fst
  · rw [if_pos hx, if_pos hx, List.map_map]
    refine List.map_congr_left ?_
    intro p _
    by_cases hp : p.1 = kv.1 <;> simp [hp]
  · rw [if_neg hx, if_neg hx, List.map_append]
    rfl

theorem foldl_insertMeta_nodup (l : List (String × String)) :
    ∀ acc : List (String × String), (acc.map Prod.fst).Nodup →
      ((l.foldl insertMeta acc).map Prod.fst).Nodup := by
  induction l with
  | nil => intro acc h; exact h
  | cons x t ih =>
    intro acc h
    rw [List.foldl_cons]
    refine ih _ ?step
    rw [map_fst_insertMeta]
    by_cases hx : x.1 ∈ acc.map Prod.fst
    · rw [if_pos hx]; exact h
    · rw [if_neg hx, ← List.concat_eq_append]
      exact h.concat hx

theorem bind_some_inv {α β : Type} {x : Option α} {f : α → Option β}
    {b : β} (h : x.bind f = some b) : ∃ a, x = some a ∧ f a = some b := by
  cases x with
  | none => simp at h
  | some a => exact ⟨a, rfl, h⟩

theorem jsonToSession_nodup (j : JVal) (s : Session)
    (h : jsonToSession j = some s) :
    s.tags.Nodup ∧ (s.metadata.map Prod.fst).Nodup := by
  unfold jsonToSession at h
  obtain ⟨i1, -, h⟩ := bind_some_inv h
  obtain ⟨i2, -, h⟩ := bind_some_inv h
  obtain ⟨i3, -, h⟩ := bind_some_inv h
  obtain ⟨i4, -, h⟩ := bind_some_inv h
  obtain ⟨i5, -, h⟩ := bind_some_inv h
  obtain ⟨i6, -, h⟩ := bind_some_inv h
  obtain ⟨i7, -, h⟩ := bind_some_inv h
  obtain ⟨i8, -, h⟩ := bind_some_inv h
  obtain ⟨i9, -, h⟩ := bind_some_inv h
  obtain ⟨e1, -, h⟩ := bind_some_inv h
  obtain ⟨c1, -, h⟩ := bind_some_inv h
  obtain ⟨tl, -, h⟩ := bind_some_inv h
  obtain ⟨k1, -, h⟩ := bind_some_inv h
  obtain ⟨m1, -, h⟩ := bind_some_inv h
  cases h
  exact ⟨foldl_insertTag_nodup tl [] List.nodup_nil,
    foldl_insertMeta_nodup (jmetaField j) [] List.nodup_nil⟩

theorem loadSession_save (st : Store) (s : Session) (k : String) :
    loadSession (saveSession st s) k =
      if k = s.id then jsonToSession (sessionToJson s) else loadSession st k := by
  unfold loadSession saveSession
  rw [storeRead_write]
  by_cases h : k = s.id <;> simp [h]

/-- A round trip for every loadable session: saving a session whose set-typed
fields are well formed and loading it back yields the identical record. -/
theorem save_load_roundtrip (st : Store) (s : Session) (ht : s.tags.Nodup)
    (hm : (s.metadata.map Prod.fst).Nodup) :
    loadSession (saveSession st s) s.id = some s := by
  rw [loadSession_save, if_pos rfl]
  exact jsonToSession_sessionToJson s ht hm

theorem loadSession_nodup (st : Store) (k : String) (s : Session)
    (h : loadSession st k = some s) :
    s.tags.Nodup ∧ (s.metadata.map Prod.fst).Nodup := by
  unfold loadSession at h
  obtain ⟨j, -, hj⟩ := bind_some_inv h
  exact jsonToSession_nodup j s hj

theorem load_after_save (st : Store) (s : Session) (k : String)
    (ht : s.tags.Nodup) (hm : (s.metadata.map Prod.fst).Nodup) :
    loadSession (saveSession st s) k =
      if k = s.id then some s else loadSession st k := by
  rw [loadSession_save]
  by_cases h : k = s.id
  · rw [if_pos h, if_pos h, jsonToSession_sessionToJson s ht hm]
  · rw [if_neg h, if_neg h]

/-- C10: `saveSession` followed by `loadSession` of the same id returns a
session equal to the saved one in every field — id, created/updated
timestamps, name, description, entries in order with role/content/timestamp,
tags, parentSessionId, childSessionIds, checkpointIds, lastCheckpointId,
memoryNodeIds, metadata, totalTokens and isCompressed.  The hypotheses say
the set-typed fields are well formed (no duplicate tags, no duplicate
metadata keys), which the C++ `unordered_set`/`unordered_map` field types
enforce. -/
theorem claim_C10 (st : Store) (s : Session) (ht : s.tags.Nodup)
    (hm : (s.metadata.map Prod.fst).Nodup) :
    loadSession (saveSession st s) s.id = some s :=
  save_load_roundtrip st s ht hm

theorem claim_C10_witness :
    loadSession
      (saveSession []
        (Session.mk "s1" [HistoryEntry.mk "user" "hi" "t0"] "c0" "u0" "nm" "ds"
          ["alpha", "beta"] "par" ["ch1"] [("k", "v")] ["cp1"] ["mn1"] 5 true
          "cp1")) "s1" =
      some (Session.mk "s1" [HistoryEntry.mk "user" "hi" "t0"] "c0" "u0" "nm"
        "ds" ["alpha", "beta"] "par" ["ch1"] [("k", "v")] ["cp1"] ["mn1"] 5
        true "cp1") :=
  claim_C10 []
    (Session.mk "s1" [HistoryEntry.mk "user" "hi" "t0"] "c0" "u0" "nm" "ds"
      ["alpha", "beta"] "par" ["ch1"] [("k", "v")] ["cp1"] ["mn1"] 5 true
      "cp1") (by decide) (by decide)

theorem claim_C4_counterexample :
    loadSession (deleteSession c4Store "C") "C" = none ∧
    (loadSession (deleteSession c4Store "C") "P").map Session.child_session_ids
      = some ["C"] := by
  constructor
  · decide
  · decide

/-- C4 (amended): deleting a session by id removes only that session's own
record; the records of every other session — in particular the parent/child
back-references and checkpoint bookkeeping held on them — are left
untouched, so the deleted id can remain in another session's
`childSessionIds` or `parentSessionId`. -/
theorem claim_C4 (st : Store) (id k : String) (hk : k ≠ id) :
    loadSession (deleteSession st id) id = none ∧
    loadSession (deleteSession st id) k = loadSession st k := by
  constructor
  · unfold loadSession
    rw [storeRead_delete, if_pos rfl]
    rfl
  · unfold loadSession
    rw [storeRead_delete, if_neg hk]

theorem claim_C4_witness :
    ("P" : String) ≠ "C" ∧
    (loadSession (deleteSession c4Store "C") "C" = none ∧
      loadSession (deleteSession c4Store "C") "P" = loadSession c4Store "P") :=
  ⟨by decide, claim_C4 c4Store "C" "P" (by decide)⟩

/-- C3: the pre-flight analysis of a dispatch estimates output tokens as
`min(inputTokens / 2, configuredMaxTokens)` when the caller supplies no cap
(`max_output_tokens = 0`) and sets `withinLimits` to
`inputTokens + estimatedOutputTokens ≤ model.maxContextTokens`; when the
request is over limits and the user declines confirmation, `sendRequest`
returns the "cancelled by user" error and performs no network call. -/
theorem claim_C3 (tc : TokenOracle) (cfg : LLMConfig)
    (prompt system_instruction reply : String) (initialized : Bool)
    (net : LLMResponse) :
    ((analyzeRequest tc cfg prompt system_instruction 0).estimated_output_tokens
        = min ((analyzeRequest tc cfg prompt system_instruction 0).input_tokens / 2)
            cfg.max_tokens ∧
      ((analyzeRequest tc cfg prompt system_instruction 0).within_limits = true ↔
        (analyzeRequest tc cfg prompt system_instruction 0).input_tokens +
          (analyzeRequest tc cfg prompt system_instruction 0).estimated_output_tokens
          ≤ (tc.pricingOf cfg.model).max_context_tokens)) ∧
    ((analyzeRequest tc cfg prompt system_instruction 0).within_limits = false →
      userConfirmsRequest cfg reply = false →
      sendRequest tc cfg initialized reply net prompt system_instruction =
        { response :=
            { content := "", tokens_used := 0, success := false
              error_message :=
                "Request cancelled by user due to cost/size concerns" }
          network_called := false }) := by
  refine ⟨⟨?_, ?_⟩, ?_⟩
  · simp [analyzeRequest]
  · simp [analyzeRequest]
  · intro hw hu
    unfold sendRequest
    simp [hw, hu]

theorem claim_C3_witness :
    sendRequest c3Oracle c3Config true "n" okNet "hello" "" =
      { response :=
          { content := "", tokens_used := 0, success := false
            error_message :=
              "Request cancelled by user due to cost/size concerns" }
        network_called := false } :=
  (claim_C3 c3Oracle c3Config "hello" "" "n" true okNet).2 (by decide) (by decide)

/-! ### The session dispatch pipeline -/

theorem addEntry_store_eq (st : Store) (sid role content ts : String)
    (s : Session) (h : loadSession st sid = some s) :
    addEntryToSession st sid role content ts =
      (saveSession st
        { s with entries := s.entries ++ [HistoryEntry.mk role content ts]
                 updated_at := ts }, true) := by
  unfold addEntryToSession
  rw [h]

theorem sendWithSession_existing (st : Store) (cur : String)
    (net : LLMResponse) (fresh ts0 tsu tsa p sid sysi : String)
    (hsid : sid ≠ "") :
    sendRequestWithSession st cur net fresh ts0 tsu tsa p sid sysi =
      sessionDispatchCore st cur net tsu tsa p sid sysi := by
  unfold sendRequestWithSession
  simp [hsid]

theorem dispatchCore_some_true (st : Store) (cur tsu tsa p target sysi : String)
    (net : LLMResponse) (s : Session)
    (h : loadSession st target = some s)
    (hb : (net.success && decide (net.content ≠ "")) = true) :
    sessionDispatchCore st cur net tsu tsa p target sysi =
      { response := net
        store := (addEntryToSession (addEntryToSession st target "user" p tsu).1
          target "assistant" net.content tsa).1
        current_session := cur, network_called := true
        messages := (if sysi ≠ "" then [("system", sysi)] else []) ++
          s.entries.map (fun e => (e.role, e.content)) ++ [("user", p)] } := by
  unfold sessionDispatchCore
  rw [h, hb]
  rfl

theorem dispatchCore_some_false (st : Store) (cur tsu tsa p target sysi : String)
    (net : LLMResponse) (s : Session)
    (h : loadSession st target = some s)
    (hb : (net.success && decide (net.content ≠ "")) = false) :
    sessionDispatchCore st cur net tsu tsa p target sysi =
      { response := net
        store := (addEntryToSession st target "user" p tsu).1
        current_session := cur, network_called := true
        messages := (if sysi ≠ "" then [("system", sysi)] else []) ++
          s.entries.map (fun e => (e.role, e.content)) ++ [("user", p)] } := by
  unfold sessionDispatchCore
  rw [h, hb]
  rfl

theorem load_save_self (st : Store) (s' : Session) (k : String)
    (ht : s'.tags.Nodup) (hm : (s'.metadata.map Prod.fst).Nodup)
    (hid : s'.id = k) :
    loadSession (saveSession st s') k = some s' := by
  rw [load_after_save st s' k ht hm, if_pos hid.symm]

theorem dispatchCore_success (st : Store) (cur tsu tsa p target sysi : String)
    (net : LLMResponse) (s : Session)
    (h : loadSession st target = some s) (hid : s.id = target)
    (hs : net.success = true) (hc : net.content ≠ "") :
    loadSession (sessionDispatchCore st cur net tsu tsa p target sysi).store
        target =
      some { s with
        entries := (s.entries ++ [HistoryEntry.mk "user" p tsu]) ++
          [HistoryEntry.mk "assistant" net.content tsa]
        updated_at := tsa } ∧
    (sessionDispatchCore st cur net tsu tsa p target sysi).network_called
      = true := by
  obtain ⟨ht, hm⟩ := loadSession_nodup st target s h
  have hc2 : decide (net.content ≠ "") = true := decide_eq_true hc
  have hb : (net.success && decide (net.content ≠ "")) = true := by
    rw [hs, hc2]; rfl
  rw [dispatchCore_some_true st cur tsu tsa p target sysi net s h hb]
  refine ⟨?_, rfl⟩
  rw [addEntry_store_eq st target "user" p tsu s h]
  show loadSession (addEntryToSession
      (saveSession st
        { s with entries := s.entries ++ [HistoryEntry.mk "user" p tsu]
                 updated_at := tsu })
      target "assistant" net.content tsa).1 target = _
  rw [addEntry_store_eq
    (saveSession st
      { s with entries := s.entries ++ [HistoryEntry.mk "user" p tsu]
               updated_at := tsu })
    target "assistant" net.content tsa
    { s with entries := s.entries ++ [HistoryEntry.mk "user" p tsu]
             updated_at := tsu }
    (load_save_self st
      { s with entries := s.entries ++ [HistoryEntry.mk "user" p tsu]
               updated_at := tsu } target ht hm hid)]
  refine Eq.trans (load_save_self _ _ target ?_ ?_ ?_) rfl
  · exact ht
  · exact hm
  · exact hid

theorem dispatchCore_failure (st : Store) (cur tsu tsa p target sysi : String)
    (net : LLMResponse) (s : Session)
    (h : loadSession st target = some s) (hid : s.id = target)
    (hfail : ¬(net.success = true ∧ net.content ≠ "")) :
    loadSession (sessionDispatchCore st cur net tsu tsa p target sysi).store
        target =
      some { s with entries := s.entries ++ [HistoryEntry.mk "user" p tsu]
                    updated_at := tsu } ∧
    (sessionDispatchCore st cur net tsu tsa p target sysi).network_called
      = true := by
  obtain ⟨ht, hm⟩ := loadSession_nodup st target s h
  have hcond : (net.success && decide (net.content ≠ "")) = false := by
    cases hsx : net.success with
    | false => rfl
    | true =>
      simp only [Bool.true_and, decide_eq_false_iff_not, Decidable.not_not]
      by_contra hcc
      exact hfail ⟨hsx, hcc⟩
  rw [dispatchCore_some_false st cur tsu tsa p target sysi net s h hcond]
  refine ⟨?_, rfl⟩
  rw [addEntry_store_eq st target "user" p tsu s h]
  refine Eq.trans (load_save_self _ _ target ?_ ?_ ?_) rfl
  · exact ht
  · exact hm
  · exact hid

/-- C1: dispatching twice against the same existing (empty) session leaves
its entries holding exactly `[user:p1, assistant:r1, user:p2, assistant:r2]`
in that order when both requests succeed; the user message is persisted to
the session before the network call, so on a failed request the store still
holds the user entry and no assistant entry is appended. -/
theorem claim_C1 (st : Store) (cur fresh ts0 ts1 ts2 ts3 ts4 : String)
    (p1 p2 sysi sid : String) (r1 r2 : LLMResponse) (s0 : Session)
    (hsid : sid ≠ "") (h0 : loadSession st sid = some s0) (hid : s0.id = sid)
    (he : s0.entries = [])
    (h1s : r1.success = true) (h1c : r1.content ≠ "")
    (h2s : r2.success = true) (h2c : r2.content ≠ "") :
    (∃ s2, loadSession
        (sendRequestWithSession
          (sendRequestWithSession st cur r1 fresh ts0 ts1 ts2 p1 sid sysi).store
          cur r2 fresh ts0 ts3 ts4 p2 sid sysi).store sid = some s2 ∧
      s2.entries.map (fun e => (e.role, e.content)) =
        [("user", p1), ("assistant", r1.content),
         ("user", p2), ("assistant", r2.content)]) ∧
    (∀ rf : LLMResponse, ¬(rf.success = true ∧ rf.content ≠ "") →
      ∃ s3, loadSession
          (sendRequestWithSession st cur rf fresh ts0 ts1 ts2 p1 sid sysi).store
          sid = some s3 ∧
        s3.entries = s0.entries ++ [HistoryEntry.mk "user" p1 ts1] ∧
        (sendRequestWithSession st cur rf fresh ts0 ts1 ts2 p1 sid sysi).network_called = true) := by
  constructor
  · rw [sendWithSession_existing st cur r1 fresh ts0 ts1 ts2 p1 sid sysi hsid]
    obtain ⟨hl1, -⟩ :=
      dispatchCore_success st cur ts1 ts2 p1 sid sysi r1 s0 h0 hid h1s h1c
    rw [sendWithSession_existing _ cur r2 fresh ts0 ts3 ts4 p2 sid sysi hsid]
    obtain ⟨hl2, -⟩ :=
      dispatchCore_success _ cur ts3 ts4 p2 sid sysi r2 _ hl1 hid h2s h2c
    refine ⟨_, hl2, ?_⟩
    simp [he]
  · intro rf hfail
    rw [sendWithSession_existing st cur rf fresh ts0 ts1 ts2 p1 sid sysi hsid]
    obtain ⟨hl, hn⟩ :=
      dispatchCore_failure st cur ts1 ts2 p1 sid sysi rf s0 h0 hid hfail
    exact ⟨_, hl, rfl, hn⟩

theorem claim_C1_witness :
    (loadSession
        (sendRequestWithSession
          (sendRequestWithSession (saveSession [] (emptySession "S1" "c0" "u0"))
            "" okNet "f" "t0" "t1" "t2" "hi" "S1" "").store
          "" okNet "f" "t0" "t3" "t4" "again" "S1" "").store "S1").map
      (fun s => s.entries.map (fun e => (e.role, e.content))) =
      some [("user", "hi"), ("assistant", "fine"),
        ("user", "again"), ("assistant", "fine")] := by
  obtain ⟨s2, hs2, hmap⟩ :=
    (claim_C1 (saveSession [] (emptySession "S1" "c0" "u0")) "" "f" "t0" "t1"
      "t2" "t3" "t4" "hi" "again" "" "S1" okNet okNet
      (emptySession "S1" "c0" "u0") (by decide) (by decide) rfl rfl
      rfl (by decide) rfl (by decide)).1
  rw [hs2]
  simp [hmap, okNet]

/-! ### Session hierarchy: setParentSession -/

theorem load_save_other (st : Store) (s' : Session) (k : String)
    (ht : s'.tags.Nodup) (hm : (s'.metadata.map Prod.fst).Nodup)
    (hne : k ≠ s'.id) :
    loadSession (saveSession st s') k = loadSession st k := by
  rw [load_after_save st s' k ht hm, if_neg hne]

theorem setParent_eq (st : Store) (child parent ts : String)
    (sc sp : Session) (hc : loadSession st child = some sc)
    (hp : loadSession st parent = some sp) :
    (setParentSession st child parent ts).1 =
      saveSession
        (saveSession
          (if sc.parent_session_id ≠ "" then
            match loadSession st sc.parent_session_id with
            | some old_parent =>
              saveSession st
                { old_parent with child_session_ids :=
                    old_parent.child_session_ids.filter (· ≠ child) }
            | none => st
          else st)
          { sc with parent_session_id := parent, updated_at := ts })
        { sp with child_session_ids := sp.child_session_ids ++ [child]
                  updated_at := ts } := by
  unfold setParentSession
  rw [hc, hp]

theorem setParent_eq_scrub (st : Store) (child parent ts : String)
    (sc sp op : Session) (hc : loadSession st child = some sc)
    (hp : loadSession st parent = some sp)
    (hpe : sc.parent_session_id ≠ "")
    (hop : loadSession st sc.parent_session_id = some op) :
    (setParentSession st child parent ts).1 =
      saveSession
        (saveSession
          (saveSession st
            { op with child_session_ids :=
                op.child_session_ids.filter (· ≠ child) })
          { sc with parent_session_id := parent, updated_at := ts })
        { sp with child_session_ids := sp.child_session_ids ++ [child]
                  updated_at := ts } := by
  rw [setParent_eq st child parent ts sc sp hc hp]
  have h1 : (if sc.parent_session_id ≠ "" then
      match loadSession st sc.parent_session_id with
      | some old_parent =>
        saveSession st
          { old_parent with child_session_ids :=
              old_parent.child_session_ids.filter (· ≠ child) }
      | none => st
    else st) =
      saveSession st
        { op with child_session_ids :=
            op.child_session_ids.filter (· ≠ child) } := by
    rw [if_pos hpe, hop]
  rw [h1]

set_option maxHeartbeats 2000000 in
/-- C5: re-parenting a child from `parentA` to `parentB` detaches it from
`parentA`'s child list before attaching it to `parentB`: afterwards
`parentA.childSessionIds` no longer contains the child,
`parentB.childSessionIds` does, and the child's `parentSessionId` is
`parentB`.  The id hypotheses say the three stored records are filed under
their own ids, which `saveSession` maintains. -/
theorem claim_C5 (st : Store) (child pA pB ts1 ts2 : String)
    (sc sa sb : Session)
    (hcA : child ≠ pA) (hcB : child ≠ pB) (hAB : pA ≠ pB) (hAe : pA ≠ "")
    (hc : loadSession st child = some sc)
    (ha : loadSession st pA = some sa)
    (hb : loadSession st pB = some sb)
    (hscid : sc.id = child) (hsaid : sa.id = pA) (hsbid : sb.id = pB) :
    (∃ pa2, loadSession
        (setParentSession (setParentSession st child pA ts1).1 child pB ts2).1
        pA = some pa2 ∧ child ∉ pa2.child_session_ids) ∧
    (∃ pb2, loadSession
        (setParentSession (setParentSession st child pA ts1).1 child pB ts2).1
        pB = some pb2 ∧ child ∈ pb2.child_session_ids) ∧
    (∃ c2, loadSession
        (setParentSession (setParentSession st child pA ts1).1 child pB ts2).1
        child = some c2 ∧ c2.parent_session_id = pB) := by
  obtain ⟨hct, hcm⟩ := loadSession_nodup st child sc hc
  obtain ⟨hat, ham⟩ := loadSession_nodup st pA sa ha
  obtain ⟨hbt, hbm⟩ := loadSession_nodup st pB sb hb
  have hApB : pB ≠ pA := fun h => hAB h.symm
  have hAc : pA ≠ child := fun h => hcA h.symm
  have hBc : pB ≠ child := fun h => hcB h.symm
  -- Step 1: the store after setParent(child, pA), with the old-parent scrub
  -- collapsed into a concrete store stA that still answers pB.
  have key : ∃ stA : Store,
      (setParentSession st child pA ts1).1 =
        saveSession
          (saveSession stA
            { sc with parent_session_id := pA, updated_at := ts1 })
          { sa with child_session_ids := sa.child_session_ids ++ [child]
                    updated_at := ts1 } ∧
      ∃ sbX, loadSession stA pB = some sbX ∧ sbX.id = pB ∧
        sbX.tags.Nodup ∧ (sbX.metadata.map Prod.fst).Nodup := by
    by_cases hpe : sc.parent_session_id ≠ ""
    · cases hop : loadSession st sc.parent_session_id with
      | none =>
        refine ⟨st, ?_, sb, hb, hsbid, hbt, hbm⟩
        rw [setParent_eq st child pA ts1 sc sa hc ha]
        have hstA : (if sc.parent_session_id ≠ "" then
            match loadSession st sc.parent_session_id with
            | some old_parent =>
              saveSession st
                { old_parent with child_session_ids :=
                    old_parent.child_session_ids.filter (· ≠ child) }
            | none => st
          else st) = st := by
          rw [if_pos hpe, hop]
        rw [hstA]
      | some op =>
        obtain ⟨hot, hom⟩ := loadSession_nodup st _ op hop
        have hstA : (if sc.parent_session_id ≠ "" then
            match loadSession st sc.parent_session_id with
            | some old_parent =>
              saveSession st
                { old_parent with child_session_ids :=
                    old_parent.child_session_ids.filter (· ≠ child) }
            | none => st
          else st) =
            saveSession st
              { op with child_session_ids :=
                  op.child_session_ids.filter (· ≠ child) } := by
          rw [if_pos hpe, hop]
        refine ⟨saveSession st
          { op with child_session_ids :=
              op.child_session_ids.filter (· ≠ child) }, ?_, ?_⟩
        · rw [setParent_eq st child pA ts1 sc sa hc ha, hstA]
        · by_cases hob : pB = op.id
          · refine ⟨{ op with child_session_ids :=
                op.child_session_ids.filter (· ≠ child) }, ?_, hob.symm, hot, hom⟩
            exact load_save_self st _ pB hot hom hob.symm
          · refine ⟨sb, ?_, hsbid, hbt, hbm⟩
            exact Eq.trans (load_save_other st _ pB hot hom hob) hb
    · refine ⟨st, ?_, sb, hb, hsbid, hbt, hbm⟩
      rw [setParent_eq st child pA ts1 sc sa hc ha]
      have hstA : (if sc.parent_session_id ≠ "" then
          match loadSession st sc.parent_session_id with
          | some old_parent =>
            saveSession st
              { old_parent with child_session_ids :=
                  old_parent.child_session_ids.filter (· ≠ child) }
          | none => st
        else st) = st := by
        rw [if_neg hpe]
      rw [hstA]
  obtain ⟨stA, hR1, sbX, hsbX, hsbXid, hsbXt, hsbXm⟩ := key
  have hcsa : child ≠ sa.id := by rw [hsaid]; exact hcA
  have hBsa : pB ≠ sa.id := by rw [hsaid]; exact hApB
  have hAsb : pA ≠ sbX.id := by rw [hsbXid]; exact hAB
  have hcsb : child ≠ sbX.id := by rw [hsbXid]; exact hcB
  have hBsc : pB ≠ sc.id := by rw [hscid]; exact hBc
  have hAsc : pA ≠ sc.id := by rw [hscid]; exact hAc
  -- Loads on the store after the first call.
  have h_child_R1 : loadSession (setParentSession st child pA ts1).1 child =
      some { sc with parent_session_id := pA, updated_at := ts1 } := by
    rw [hR1]
    rw [load_save_other _
      { sa with child_session_ids := sa.child_session_ids ++ [child]
                updated_at := ts1 } child hat ham hcsa]
    exact load_save_self stA _ child hct hcm hscid
  have h_pA_R1 : loadSession (setParentSession st child pA ts1).1 pA =
      some { sa with child_session_ids := sa.child_session_ids ++ [child]
                     updated_at := ts1 } := by
    rw [hR1]
    exact load_save_self _ _ pA hat ham hsaid
  have h_pB_R1 : loadSession (setParentSession st child pA ts1).1 pB =
      some sbX := by
    rw [hR1]
    rw [load_save_other _
      { sa with child_session_ids := sa.child_session_ids ++ [child]
                updated_at := ts1 } pB hat ham hBsa]
    rw [load_save_other _
      { sc with parent_session_id := pA, updated_at := ts1 } pB hct hcm hBsc]
    exact hsbX
  -- Step 2: unfold the second call; the old parent is now pA.
  rw [setParent_eq_scrub (setParentSession st child pA ts1).1 child pB ts2
    { sc with parent_session_id := pA, updated_at := ts1 } sbX
    { sa with child_session_ids := sa.child_session_ids ++ [child]
              updated_at := ts1 }
    h_child_R1 h_pB_R1 hAe h_pA_R1]
  refine ⟨⟨_, Eq.trans (load_save_other _ _ pA (by exact hsbXt) (by exact hsbXm)
        (by exact hAsb))
      (Eq.trans (load_save_other _ _ pA (by exact hct) (by exact hcm)
          (by exact hAsc))
        (load_save_self _ _ pA (by exact hat) (by exact ham) (by exact hsaid))),
      by simp⟩,
    ⟨_, load_save_self _ _ pB (by exact hsbXt) (by exact hsbXm)
      (by exact hsbXid), by simp⟩,
    ⟨_, Eq.trans (load_save_other _ _ child (by exact hsbXt) (by exact hsbXm)
        (by exact hcsb))
      (load_save_self _ _ child (by exact hct) (by exact hcm)
        (by exact hscid)), by exact rfl⟩⟩

/-! ### Session hierarchy: getSessionHierarchy (C9) -/

theorem storeRead_mem_keys (st : Store) (id : String) (j : JVal)
    (h : storeRead st id = some j) : id ∈ st.map Prod.fst := by
  induction st with
  | nil => simp [storeRead] at h
  | cons kv rest ih =>
    obtain ⟨a, b⟩ := kv
    by_cases hek : a = id
    · simp [hek]
    · simp only [storeRead] at h
      rw [if_neg hek] at h
      simp [ih h]

theorem loadSession_mem_keys (st : Store) (id : String) (s : Session)
    (h : loadSession st id = some s) : id ∈ st.map Prod.fst := by
  unfold loadSession at h
  cases hr : storeRead st id with
  | none => rw [hr] at h; simp at h
  | some j => exact storeRead_mem_keys st id j hr

theorem pIter_succ_unfold (st : Store) (k : Nat) (cur : String) :
    pIter st (k + 1) cur = match loadSession st cur with
      | none => none
      | some s => pIter st k s.parent_session_id := rfl

theorem pIter_succ_back (st : Store) (k : Nat) :
    ∀ cur, pIter st (k + 1) cur =
      (pIter st k cur).bind fun c =>
        match loadSession st c with
        | none => none
        | some s => some s.parent_session_id := by
  induction k with
  | zero =>
    intro cur
    rw [pIter_succ_unfold st 0 cur]
    cases hl : loadSession st cur <;> simp [pIter, hl]
  | succ n ih =>
    intro cur
    rw [pIter_succ_unfold st (n + 1) cur, pIter_succ_unfold st n cur]
    cases hl : loadSession st cur with
    | none => simp
    | some s =>
      show pIter st (n + 1) s.parent_session_id =
        (pIter st n s.parent_session_id).bind fun c =>
          match loadSession st c with
          | none => none
          | some s2 => some s2.parent_session_id
      exact ih s.parent_session_id

theorem pIter_extend (st : Store) (k : Nat) (v cur : String) (s : Session)
    (hk : pIter st k v = some cur) (hl : loadSession st cur = some s) :
    pIter st (k + 1) v = some s.parent_session_id := by
  rw [pIter_succ_back st k v, hk]
  simp [hl]

/-- What the hierarchy loop produces, read rootward from the start id:
each pushed id is nonempty, consecutive ids are linked by
`parent_session_id`, and the walk stops exactly at an empty id or at an
id whose session file is missing. -/
def WalkSpec (st : Store) : String → List String → Prop
  | cur, [] => cur = ""
  | cur, x :: rest => x = cur ∧ cur ≠ "" ∧
      ((loadSession st cur = none ∧ rest = []) ∨
        (∃ s, loadSession st cur = some s ∧
          WalkSpec st s.parent_session_id rest))

theorem WalkSpec_nil (st : Store) (cur : String) :
    WalkSpec st cur [] ↔ cur = "" := Iff.rfl

theorem WalkSpec_cons (st : Store) (cur a : String) (rest : List String) :
    WalkSpec st cur (a :: rest) ↔ (a = cur ∧ cur ≠ "" ∧
      ((loadSession st cur = none ∧ rest = []) ∨
        (∃ s, loadSession st cur = some s ∧
          WalkSpec st s.parent_session_id rest))) := Iff.rfl

theorem walkHier_spec (st : Store)
    (hacyc : ∀ x ∈ st.map Prod.fst, ∀ k < st.length + 1, 0 < k →
      pIter st k x ≠ some x) :
    ∀ (fuel : Nat) (cur : String) (acc : List String),
      acc.Nodup →
      (∀ v ∈ acc, v ∈ st.map Prod.fst) →
      (∀ v ∈ acc, ∃ k, 0 < k ∧ k ≤ acc.length ∧ pIter st k v = some cur) →
      ((st.map Prod.fst).toFinset \ acc.toFinset).card < fuel →
      ∃ w, walkHier st fuel cur acc = (acc ++ w, true) ∧ WalkSpec st cur w := by
  intro fuel
  induction fuel with
  | zero =>
    intro cur acc _ _ _ hcard
    exact absurd hcard (Nat.not_lt_zero _)
  | succ n ih =>
    intro cur acc hnd hkeys hinv hcard
    by_cases hc : cur = ""
    · refine ⟨[], ?_, ?_⟩
      · simp [walkHier, hc]
      · exact (WalkSpec_nil st cur).mpr hc
    · cases hload : loadSession st cur with
      | none =>
        refine ⟨[cur], ?_, ?_⟩
        · simp [walkHier, hc, hload]
        · exact (WalkSpec_cons st cur cur []).mpr ⟨rfl, hc, Or.inl ⟨hload, rfl⟩⟩
      | some s =>
        have hkey : cur ∈ st.map Prod.fst := loadSession_mem_keys st cur s hload
        have hlen : acc.length ≤ st.length := by
          have h1 : acc.toFinset.card = acc.length :=
            List.toFinset_card_of_nodup hnd
          have h2 : acc.toFinset ⊆ (st.map Prod.fst).toFinset := by
            intro x hx
            rw [List.mem_toFinset] at hx ⊢
            exact hkeys x hx
          have h3 := Finset.card_le_card h2
          have h4 : (st.map Prod.fst).toFinset.card ≤ (st.map Prod.fst).length :=
            List.toFinset_card_le _
          rw [List.length_map] at h4
          omega
        have hnot : cur ∉ acc := by
          intro hmem
          obtain ⟨k, hk0, hkle, hpit⟩ := hinv cur hmem
          exact hacyc cur (hkeys cur hmem) k (by omega) hk0 hpit
        have hcard' :
            ((st.map Prod.fst).toFinset \ (acc ++ [cur]).toFinset).card < n := by
          have hsub : ((st.map Prod.fst).toFinset \ (acc ++ [cur]).toFinset) ⊆
              ((st.map Prod.fst).toFinset \ acc.toFinset) := by
            apply Finset.sdiff_subset_sdiff (Finset.Subset.refl _)
            intro x hx
            rw [List.mem_toFinset] at hx ⊢
            exact List.mem_append_left _ hx
          have hcur_in : cur ∈ (st.map Prod.fst).toFinset \ acc.toFinset := by
            rw [Finset.mem_sdiff, List.mem_toFinset, List.mem_toFinset]
            exact ⟨hkey, hnot⟩
          have hcur_out :
              cur ∉ (st.map Prod.fst).toFinset \ (acc ++ [cur]).toFinset := by
            rw [Finset.mem_sdiff]
            rintro ⟨-, hn2⟩
            exact hn2 (by
              rw [List.mem_toFinset]
              exact List.mem_append_right _ (List.mem_singleton_self cur))
          have hss : ((st.map Prod.fst).toFinset \ (acc ++ [cur]).toFinset) ⊂
              ((st.map Prod.fst).toFinset \ acc.toFinset) :=
            ⟨hsub, fun hts => hcur_out (hts hcur_in)⟩
          have hcc := Finset.card_lt_card hss
          omega
        have hnd' : (acc ++ [cur]).Nodup := by
          rw [List.nodup_append]
          refine ⟨hnd, List.nodup_singleton _, ?_⟩
          intro a ha hb
          rw [List.mem_singleton] at hb
          subst hb
          exact hnot ha
        have hkeys' : ∀ v ∈ acc ++ [cur], v ∈ st.map Prod.fst := by
          intro v hv
          rcases List.mem_append.mp hv with h | h
          · exact hkeys v h
          · rw [List.mem_singleton] at h
            subst h
            exact hkey
        have hinv' : ∀ v ∈ acc ++ [cur], ∃ k, 0 < k ∧ k ≤ (acc ++ [cur]).length ∧
            pIter st k v = some s.parent_session_id := by
          intro v hv
          rcases List.mem_append.mp hv with h | h
          · obtain ⟨k, hk0, hkle, hpit⟩ := hinv v h
            refine ⟨k + 1, by omega, ?_, pIter_extend st k v cur s hpit hload⟩
            simp only [List.length_append, List.length_singleton]
            omega
          · rw [List.mem_singleton] at h
            subst h
            refine ⟨1, by omega, ?_, ?_⟩
            · simp only [List.length_append, List.length_singleton]
              omega
            · rw [show pIter st 1 v =
                (match loadSession st v with
                  | none => none
                  | some s2 => some s2.parent_session_id : Option String) from
                rfl, hload]
        obtain ⟨w', heq, hspec⟩ :=
          ih s.parent_session_id (acc ++ [cur]) hnd' hkeys' hinv' hcard'
        refine ⟨cur :: w', ?_, ?_⟩
        · have hstep : walkHier st (n + 1) cur acc =
              walkHier st n s.parent_session_id (acc ++ [cur]) := by
            simp [walkHier, hc, hload]
          rw [hstep, heq]
          simp
        · exact (WalkSpec_cons st cur cur w').mpr
            ⟨rfl, hc, Or.inr ⟨s, hload, hspec⟩⟩

theorem walkSpec_links (st : Store) :
    ∀ (w : List String) (cur : String), WalkSpec st cur w →
      ∀ (j : Nat) (x y : String), w[j]? = some x → w[j + 1]? = some y →
        ∃ s, loadSession st x = some s ∧ s.parent_session_id = y := by
  intro w
  induction w with
  | nil =>
    intro cur _ j x y hx _
    simp at hx
  | cons a rest ih =>
    intro cur hspec j x y hx hy
    rw [WalkSpec_cons] at hspec
    obtain ⟨ha, hc, hbr⟩ := hspec
    cases j with
    | zero =>
      simp only [List.getElem?_cons_zero, Option.some.injEq] at hx
      rcases hbr with ⟨hnone, hrest⟩ | ⟨s, hload, hspec2⟩
      · subst hrest
        simp at hy
      · cases rest with
        | nil => simp at hy
        | cons b rest2 =>
          rw [WalkSpec_cons] at hspec2
          obtain ⟨hb, -, -⟩ := hspec2
          simp only [List.getElem?_cons_succ, List.getElem?_cons_zero,
            Option.some.injEq] at hy
          subst hx
          subst ha
          subst hy
          exact ⟨s, hload, hb.symm⟩
    | succ m =>
      simp only [List.getElem?_cons_succ] at hx hy
      rcases hbr with ⟨hnone, hrest⟩ | ⟨s, hload, hspec2⟩
      · subst hrest
        simp at hx
      · exact ih s.parent_session_id hspec2 m x y hx hy

theorem walkSpec_last (st : Store) :
    ∀ (w : List String) (cur : String), WalkSpec st cur w →
      ∀ x, w.getLast? = some x →
        loadSession st x = none ∨
          ∃ s, loadSession st x = some s ∧ s.parent_session_id = "" := by
  intro w
  induction w with
  | nil =>
    intro cur _ x hx
    simp at hx
  | cons a rest ih =>
    intro cur hspec x hx
    rw [WalkSpec_cons] at hspec
    obtain ⟨ha, hc, hbr⟩ := hspec
    cases rest with
    | nil =>
      simp only [List.getLast?_singleton, Option.some.injEq] at hx
      subst hx
      subst ha
      rcases hbr with ⟨hnone, -⟩ | ⟨s, hload, hspec2⟩
      · exact Or.inl hnone
      · exact Or.inr ⟨s, hload, (WalkSpec_nil st s.parent_session_id).mp hspec2⟩
    | cons b rest2 =>
      rcases hbr with ⟨-, hrest⟩ | ⟨s, -, hspec2⟩
      · simp at hrest
      · rw [List.getLast?_cons_cons] at hx
        exact ih s.parent_session_id hspec2 x hx

/-- C9: on a store whose parent links are acyclic (no id returns to itself
under iterated parent lookups of any relevant length), `getSessionHierarchy`
terminates — the fuelled loop finishes with fuel to spare — and returns the
chain of session ids from the root down to the requested id, root first:
the last element is the requested id, consecutive elements are linked by
`parent_session_id` (each element's session names the previous element as
parent), and the first element is a root (its session is missing or has an
empty parent id). -/
theorem claim_C9 (st : Store) (session_id : String)
    (hacyc : ∀ x ∈ st.map Prod.fst, ∀ k < st.length + 1, 0 < k →
      pIter st k x ≠ some x)
    (hid : session_id ≠ "") :
    ∃ r, getSessionHierarchy st session_id = (r, true) ∧ r ≠ [] ∧
      r.getLast? = some session_id ∧
      (∀ x, r[0]? = some x → loadSession st x = none ∨
        ∃ s, loadSession st x = some s ∧ s.parent_session_id = "") ∧
      (∀ j x y, r[j]? = some x → r[j + 1]? = some y →
        ∃ s, loadSession st y = some s ∧ s.parent_session_id = x) := by
  obtain ⟨w, heq, hspec⟩ := walkHier_spec st hacyc (st.length + 2) session_id []
    List.nodup_nil (by intro v hv; simp at hv) (by intro v hv; simp at hv)
    (by
      have h4 : (st.map Prod.fst).toFinset.card ≤ (st.map Prod.fst).length :=
        List.toFinset_card_le _
      rw [List.length_map] at h4
      simp only [List.toFinset_nil, Finset.sdiff_empty]
      omega)
  refine ⟨w.reverse, ?_, ?_, ?_, ?_, ?_⟩
  · simp [getSessionHierarchy, heq]
  · cases w with
    | nil =>
      rw [WalkSpec_nil] at hspec
      exact absurd hspec hid
    | cons a rest => simp
  · rw [List.getLast?_reverse]
    cases w with
    | nil =>
      rw [WalkSpec_nil] at hspec
      exact absurd hspec hid
    | cons a rest =>
      rw [WalkSpec_cons] at hspec
      obtain ⟨ha, -, -⟩ := hspec
      simp [ha]
  · intro x hx
    have hx2 : w.getLast? = some x := by
      rw [← List.head?_reverse, List.head?_eq_getElem?]
      exact hx
    exact walkSpec_last st w session_id hspec x hx2
  · intro j x y hx hy
    have hlen2 : j + 1 < w.length := by
      by_contra hcon
      rw [List.getElem?_eq_none (by
        rw [List.length_reverse]
        omega)] at hy
      simp at hy
    have hlen1 : j < w.length := by omega
    rw [List.getElem?_reverse hlen1] at hx
    rw [List.getElem?_reverse hlen2] at hy
    have hi1 : w.length - 1 - j = (w.length - 1 - (j + 1)) + 1 := by omega
    rw [hi1] at hx
    exact walkSpec_links st w session_id hspec (w.length - 1 - (j + 1)) y x hy hx

theorem claim_C9_witness :
    ∃ r, getSessionHierarchy c5Store "C" = (r, true) ∧ r ≠ [] ∧
      r.getLast? = some "C" ∧
      (∀ x, r[0]? = some x → loadSession c5Store x = none ∨
        ∃ s, loadSession c5Store x = some s ∧ s.parent_session_id = "") ∧
      (∀ j x y, r[j]? = some x → r[j + 1]? = some y →
        ∃ s, loadSession c5Store y = some s ∧ s.parent_session_id = x) :=
  claim_C9 c5Store "C" (by decide) (by decide)

theorem claim_C5_witness :
    (∃ pa2, loadSession
        (setParentSession (setParentSession c5Store "C" "A" "t1").1 "C" "B"
          "t2").1 "A" = some pa2 ∧ "C" ∉ pa2.child_session_ids) ∧
    (∃ pb2, loadSession
        (setParentSession (setParentSession c5Store "C" "A" "t1").1 "C" "B"
          "t2").1 "B" = some pb2 ∧ "C" ∈ pb2.child_session_ids) ∧
    (∃ c2, loadSession
        (setParentSession (setParentSession c5Store "C" "A" "t1").1 "C" "B"
          "t2").1 "C" = some c2 ∧ c2.parent_session_id = "B") :=
  claim_C5 c5Store "C" "A" "B" "t1" "t2"
    (emptySession "C" "c0" "u0") (emptySession "A" "c0" "u0")
    (emptySession "B" "c0" "u0")
    (by decide) (by decide) (by decide) (by decide)
    (by decide) (by decide) (by decide) rfl rfl rfl

/-! ### Relevance score (C6) -/

theorem foldl_preserve {α β : Type} (g : List α → β → List α) (P : α → Prop)
    (hg : ∀ acc w, (∀ k ∈ acc, P k) → ∀ k ∈ g acc w, P k) :
    ∀ (ws : List β) (acc : List α), (∀ k ∈ acc, P k) →
      ∀ k ∈ List.foldl g acc ws, P k := by
  intro ws
  induction ws with
  | nil => intro acc hacc; exact hacc
  | cons w ws ih =>
    intro acc hacc
    rw [List.foldl_cons]
    exact ih (g acc w) (hg acc w hacc)

theorem extractKeywords_min_length (text : Str) (options : AnalysisOptions) :
    ∀ k ∈ extractKeywords text options, options.min_keyword_length ≤ k.length := by
  unfold extractKeywords
  refine foldl_preserve _ _ ?_ (splitIntoWords text) [] ?_
  · intro acc w hacc k hk
    have hk2 : k ∈ (if (normalizeKeyword w).length < options.min_keyword_length ||
        isStopWord (normalizeKeyword w) options.stop_words then acc
      else if acc.contains (normalizeKeyword w) then acc
      else acc ++ [normalizeKeyword w]) := hk
    by_cases hshort : (normalizeKeyword w).length < options.min_keyword_length
    · rw [if_pos (by simp [hshort])] at hk2
      exact hacc k hk2
    · by_cases hstop : isStopWord (normalizeKeyword w) options.stop_words = true
      · rw [if_pos (by simp [hstop])] at hk2
        exact hacc k hk2
      · rw [if_neg (by simp [hshort, hstop])] at hk2
        by_cases hct : acc.contains (normalizeKeyword w) = true
        · rw [if_pos hct] at hk2
          exact hacc k hk2
        · rw [if_neg hct] at hk2
          rcases List.mem_append.mp hk2 with h | h
          · exact hacc k h
          · rw [List.mem_singleton] at h
            subst h
            omega
  · intro k hk
    simp at hk

theorem hasSub_self (k : Str) : hasSub k k = true := by
  unfold hasSub
  rw [if_pos (show List.isPrefixOf k k = true by simp)]

/-- C6: the relevance score of a prompt against a file equals
`(exact + 0.7 * partial + 0.5 * contains) / 2.2` clamped at 1 (0 when either
the keyword list or the term list is empty), where each component counts each
prompt keyword at most once and divides by the number of prompt keywords; the
score always lies in `[0, 1]`; and when the keyword list equals the term list
(keywords are at least `min_keyword_length ≥ 3` long by construction) the
score is at least `0.8`. -/
theorem claim_C6 (prompt : Str) (file_info : FileInfo)
    (options : AnalysisOptions) :
    ((analyzeRelevanceInfo prompt file_info options).score =
      (if extractKeywords prompt options = [] ∨
          extractSearchableTerms file_info options = [] then 0
       else
        min ((((extractKeywords prompt options).countP
              (fun k => (extractSearchableTerms file_info options).any
                (fun t => k == t)) : ℚ) /
              (extractKeywords prompt options).length * 1 +
            ((extractKeywords prompt options).countP
              (fun k => (extractSearchableTerms file_info options).any
                (fun t => hasSub k t || hasSub t k)) : ℚ) /
              (extractKeywords prompt options).length * (7/10) +
            ((extractKeywords prompt options).countP
              (fun k => (extractSearchableTerms file_info options).any
                (fun t => decide (3 ≤ k.length) && hasSub t k)) : ℚ) /
              (extractKeywords prompt options).length * (1/2)) / (11/5)) 1)) ∧
    0 ≤ (analyzeRelevanceInfo prompt file_info options).score ∧
    (analyzeRelevanceInfo prompt file_info options).score ≤ 1 ∧
    (3 ≤ options.min_keyword_length →
      extractKeywords prompt options = extractSearchableTerms file_info options →
      extractKeywords prompt options ≠ [] →
      8/10 ≤ (analyzeRelevanceInfo prompt file_info options).score) := by
  have hf : (analyzeRelevanceInfo prompt file_info options).score =
      (if extractKeywords prompt options = [] ∨
          extractSearchableTerms file_info options = [] then 0
       else
        min ((((extractKeywords prompt options).countP
              (fun k => (extractSearchableTerms file_info options).any
                (fun t => k == t)) : ℚ) /
              (extractKeywords prompt options).length * 1 +
            ((extractKeywords prompt options).countP
              (fun k => (extractSearchableTerms file_info options).any
                (fun t => hasSub k t || hasSub t k)) : ℚ) /
              (extractKeywords prompt options).length * (7/10) +
            ((extractKeywords prompt options).countP
              (fun k => (extractSearchableTerms file_info options).any
                (fun t => decide (3 ≤ k.length) && hasSub t k)) : ℚ) /
              (extractKeywords prompt options).length * (1/2)) / (11/5)) 1) := by
    by_cases hpk : extractKeywords prompt options = []
    · simp [analyzeRelevanceInfo, hpk]
    · by_cases hft : extractSearchableTerms file_info options = []
      · simp [analyzeRelevanceInfo, hpk, hft]
      · simp [analyzeRelevanceInfo, calculateKeywordMatch,
          calculateExactMatchScore, calculatePartialMatchScore,
          calculateContainsMatchScore, hpk, hft]
  refine ⟨hf, ?_, ?_, ?_⟩
  · rw [hf]
    by_cases h : extractKeywords prompt options = [] ∨
        extractSearchableTerms file_info options = []
    · rw [if_pos h]
    · rw [if_neg h]
      refine le_min ?_ (by norm_num)
      positivity
  · rw [hf]
    by_cases h : extractKeywords prompt options = [] ∨
        extractSearchableTerms file_info options = []
    · rw [if_pos h]
      norm_num
    · rw [if_neg h]
      exact min_le_right _ _
  · intro hmin heq hne
    rw [hf]
    have hftne : extractSearchableTerms file_info options ≠ [] := by
      rw [← heq]
      exact hne
    rw [if_neg (by
      rintro (h | h)
      · exact hne h
      · exact hftne h)]
    rw [← heq]
    have hLpos : 0 < (extractKeywords prompt options).length :=
      List.length_pos.mpr hne
    have hL : (((extractKeywords prompt options).length : ℚ)) ≠ 0 :=
      Nat.cast_ne_zero.mpr (Nat.pos_iff_ne_zero.mp hLpos)
    have he : (extractKeywords prompt options).countP
        (fun k => (extractKeywords prompt options).any (fun t => k == t)) =
        (extractKeywords prompt options).length :=
      List.countP_eq_length.mpr
        (fun k hk => List.any_eq_true.mpr ⟨k, hk, by simp⟩)
    have hp : (extractKeywords prompt options).countP
        (fun k => (extractKeywords prompt options).any
          (fun t => hasSub k t || hasSub t k)) =
        (extractKeywords prompt options).length :=
      List.countP_eq_length.mpr
        (fun k hk => List.any_eq_true.mpr ⟨k, hk, by
          rw [Bool.or_eq_true]
          exact Or.inl (hasSub_self k)⟩)
    have hcn : (extractKeywords prompt options).countP
        (fun k => (extractKeywords prompt options).any
          (fun t => decide (3 ≤ k.length) && hasSub t k)) =
        (extractKeywords prompt options).length :=
      List.countP_eq_length.mpr
        (fun k hk => List.any_eq_true.mpr ⟨k, hk, by
          rw [Bool.and_eq_true, decide_eq_true_eq]
          exact ⟨le_trans hmin (extractKeywords_min_length prompt options k hk),
            hasSub_self k⟩⟩)
    rw [he, hp, hcn]
    simp only [div_self hL]
    have h1 : ((1:ℚ) * 1 + 1 * (7/10) + 1 * (1/2)) / (11/5) = 1 := by norm_num
    rw [h1, min_self]
    norm_num

theorem claim_C6_witness :
    3 ≤ defaultAnalysisOptions.min_keyword_length ∧
    extractKeywords c6Prompt defaultAnalysisOptions =
      extractSearchableTerms c6File defaultAnalysisOptions ∧
    extractKeywords c6Prompt defaultAnalysisOptions ≠ [] ∧
    8/10 ≤ (analyzeRelevanceInfo c6Prompt c6File defaultAnalysisOptions).score :=
  ⟨by decide, by decide, by decide,
    (claim_C6 c6Prompt c6File defaultAnalysisOptions).2.2.2
      (by decide) (by decide) (by decide)⟩

/-! ### Zero-inclusion identity (C8) -/

/-- C8: a prompt with no inclusion directives is returned unchanged by the
plain inclusion pass, by the intelligent-selection pass, and hence by
`buildContext` whichever path it takes. -/
theorem claim_C8 (env : FsEnv) (opts : ContextOptions) (prompt : Str)
    (h : extractFileInclusions prompt = []) :
    processInclusions env opts prompt = prompt ∧
    processInclusionsWithIntelligence env opts prompt = prompt ∧
    buildContext env opts prompt = prompt := by
  have h1 : processInclusions env opts prompt = prompt := by
    unfold processInclusions
    rw [h]
    rfl
  have h2 : processInclusionsWithIntelligence env opts prompt = prompt := by
    unfold processInclusionsWithIntelligence
    rw [h]
    rfl
  refine ⟨h1, h2, ?_⟩
  unfold buildContext
  by_cases he : opts.enable_intelligent_selection = true
  · rw [if_pos he]
    exact h2
  · rw [if_neg he]
    exact h1

theorem claim_C8_witness :
    processInclusions trivEnv {} "no directives here".toList =
      "no directives here".toList ∧
    processInclusionsWithIntelligence trivEnv {} "no directives here".toList =
      "no directives here".toList ∧
    buildContext trivEnv {} "no directives here".toList =
      "no directives here".toList :=
  claim_C8 trivEnv {} "no directives here".toList (by decide)

/-! ### File truncation (C7) -/

theorem infix_flatten_map {α β : Type} (f : α → List β) (l : List α) (x : α)
    (hx : x ∈ l) : f x <:+: (l.map f).flatten := by
  obtain ⟨s, t, rfl⟩ := List.append_of_mem hx
  refine ⟨(s.map f).flatten, (t.map f).flatten, ?_⟩
  simp

theorem truncateFile_eq (content : Str) (max_size : Nat) (file_path : Str)
    (h : ¬((linesOf content).length ≤ max_size / 50)) :
    truncateFile content max_size file_path =
      ("// File truncated: showing ".toList ++ natStr (max_size / 50) ++
        " of ".toList ++ natStr (linesOf content).length ++
        " lines\n".toList) ++
      ("// File: ".toList ++ file_path ++ "\n\n".toList) ++
      ((List.range (max_size / 50 / 2)).map
        (fun i => numLine (i + 1) ((linesOf content).getD i []))).flatten ++
      ("\n// ... ".toList ++
        natStr ((linesOf content).length - max_size / 50) ++
        " lines omitted ...\n\n".toList) ++
      ((List.range' ((linesOf content).length -
          (max_size / 50 - max_size / 50 / 2))
          (max_size / 50 - max_size / 50 / 2)).map
        (fun i => numLine (i + 1) ((linesOf content).getD i []))).flatten := by
  simp only [truncateFile]
  rw [if_neg h]

/-- C7 (amended): whenever the kept-line budget `max_size / 50` is smaller
than the file's line count — the condition `truncateFile` actually tests —
the output contains the omission marker naming exactly the number of dropped
lines, the head keeps the first `keep/2` original lines and the tail the last
`keep - keep/2` (so `keep` lines in all, split as evenly as integer division
allows), and every kept line is rendered by `numLine` with its true 1-based
line number. -/
theorem claim_C7 (content : Str) (max_size : Nat) (file_path : Str)
    (hkeep : max_size / 50 < (linesOf content).length) :
    (("\n// ... ".toList ++
        natStr ((linesOf content).length - max_size / 50) ++
        " lines omitted ...\n\n".toList) <:+:
      truncateFile content max_size file_path) ∧
    (max_size / 50 / 2) + (max_size / 50 - max_size / 50 / 2) = max_size / 50 ∧
    (∀ i, i < max_size / 50 / 2 →
      numLine (i + 1) ((linesOf content).getD i []) <:+:
        truncateFile content max_size file_path) ∧
    (∀ i, (linesOf content).length - (max_size / 50 - max_size / 50 / 2) ≤ i →
      i < (linesOf content).length →
      numLine (i + 1) ((linesOf content).getD i []) <:+:
        truncateFile content max_size file_path) := by
  have h : ¬((linesOf content).length ≤ max_size / 50) := by omega
  have heq := truncateFile_eq content max_size file_path h
  refine ⟨?_, by omega, ?_, ?_⟩
  · rw [heq]
    refine ⟨("// File truncated: showing ".toList ++ natStr (max_size / 50) ++
        " of ".toList ++ natStr (linesOf content).length ++
        " lines\n".toList) ++
      ("// File: ".toList ++ file_path ++ "\n\n".toList) ++
      ((List.range (max_size / 50 / 2)).map
        (fun i => numLine (i + 1) ((linesOf content).getD i []))).flatten,
      ((List.range' ((linesOf content).length -
          (max_size / 50 - max_size / 50 / 2))
          (max_size / 50 - max_size / 50 / 2)).map
        (fun i => numLine (i + 1) ((linesOf content).getD i []))).flatten, ?_⟩
    simp
  · intro i hi
    have h1 : numLine (i + 1) ((linesOf content).getD i []) <:+:
        ((List.range (max_size / 50 / 2)).map
          (fun j => numLine (j + 1) ((linesOf content).getD j []))).flatten :=
      infix_flatten_map (fun j => numLine (j + 1) ((linesOf content).getD j []))
        (List.range (max_size / 50 / 2)) i (List.mem_range.mpr hi)
    refine h1.trans ?_
    rw [heq]
    refine ⟨("// File truncated: showing ".toList ++ natStr (max_size / 50) ++
        " of ".toList ++ natStr (linesOf content).length ++
        " lines\n".toList) ++
      ("// File: ".toList ++ file_path ++ "\n\n".toList),
      ("\n// ... ".toList ++
        natStr ((linesOf content).length - max_size / 50) ++
        " lines omitted ...\n\n".toList) ++
      ((List.range' ((linesOf content).length -
          (max_size / 50 - max_size / 50 / 2))
          (max_size / 50 - max_size / 50 / 2)).map
        (fun i => numLine (i + 1) ((linesOf content).getD i []))).flatten, ?_⟩
    simp
  · intro i hi1 hi2
    have hmem : i ∈ List.range' ((linesOf content).length -
        (max_size / 50 - max_size / 50 / 2))
        (max_size / 50 - max_size / 50 / 2) := by
      rw [List.mem_range']
      refine ⟨i - ((linesOf content).length -
        (max_size / 50 - max_size / 50 / 2)), by omega, by omega⟩
    have h1 : numLine (i + 1) ((linesOf content).getD i []) <:+:
        ((List.range' ((linesOf content).length -
            (max_size / 50 - max_size / 50 / 2))
            (max_size / 50 - max_size / 50 / 2)).map
          (fun j => numLine (j + 1) ((linesOf content).getD j []))).flatten :=
      infix_flatten_map (fun j => numLine (j + 1) ((linesOf content).getD j []))
        (List.range' ((linesOf content).length -
          (max_size / 50 - max_size / 50 / 2))
          (max_size / 50 - max_size / 50 / 2)) i hmem
    refine h1.trans ?_
    rw [heq]
    refine ⟨("// File truncated: showing ".toList ++ natStr (max_size / 50) ++
        " of ".toList ++ natStr (linesOf content).length ++
        " lines\n".toList) ++
      ("// File: ".toList ++ file_path ++ "\n\n".toList) ++
      ((List.range (max_size / 50 / 2)).map
        (fun i => numLine (i + 1) ((linesOf content).getD i []))).flatten ++
      ("\n// ... ".toList ++
        natStr ((linesOf content).length - max_size / 50) ++
        " lines omitted ...\n\n".toList), [], ?_⟩
    simp

theorem claim_C7_witness :
    (("\n// ... ".toList ++
        natStr ((linesOf "a\nb\nc\nd\n".toList).length - 100 / 50) ++
        " lines omitted ...\n\n".toList) <:+:
      truncateFile "a\nb\nc\nd\n".toList 100 "f".toList) ∧
    (100 / 50 / 2) + (100 / 50 - 100 / 50 / 2) = 100 / 50 ∧
    (∀ i, i < 100 / 50 / 2 →
      numLine (i + 1) ((linesOf "a\nb\nc\nd\n".toList).getD i []) <:+:
        truncateFile "a\nb\nc\nd\n".toList 100 "f".toList) ∧
    (∀ i, (linesOf "a\nb\nc\nd\n".toList).length - (100 / 50 - 100 / 50 / 2) ≤ i →
      i < (linesOf "a\nb\nc\nd\n".toList).length →
      numLine (i + 1) ((linesOf "a\nb\nc\nd\n".toList).getD i []) <:+:
        truncateFile "a\nb\nc\nd\n".toList 100 "f".toList) :=
  claim_C7 "a\nb\nc\nd\n".toList 100 "f".toList (by decide)

set_option maxRecDepth 4000 in
/-- C7 is not true as stated: a 201-character single-line file estimated at
51 tokens exceeds a cap of 50, yet `truncateFile` keeps it unchanged — no
omission marker appears and the estimated token count does not drop, because
the function tests the line budget `max_size / 50`, not the token
estimate. -/
theorem claim_C7_counterexample :
    50 < estimateTokenCount (List.replicate 201 'a') ∧
    truncateFile (List.replicate 201 'a') 50 "f".toList =
      List.replicate 201 'a' ∧
    estimateTokenCount (truncateFile (List.replicate 201 'a') 50 "f".toList) =
      estimateTokenCount (List.replicate 201 'a') := by
  refine ⟨by decide, ?_, ?_⟩
  · decide
  · decide

/-! ### Path sandboxing and in-place inclusion replacement (C2) -/

/-- Two matches do not overlap. -/
def Disj (a b : FileInclusion) : Prop :=
  a.start_position + a.full_match.length ≤ b.start_position ∨
    b.start_position + b.full_match.length ≤ a.start_position

/-- The list is ordered by descending, pairwise disjoint matches, all ending
at or before position `b`. -/
def DescOK : Nat → List FileInclusion → Prop
  | _, [] => True
  | b, inc :: rest => inc.start_position + inc.full_match.length ≤ b ∧
      DescOK inc.start_position rest

theorem DescOK_cons (b : Nat) (i : FileInclusion) (rest : List FileInclusion) :
    DescOK b (i :: rest) ↔ (i.start_position + i.full_match.length ≤ b ∧
      DescOK i.start_position rest) := Iff.rfl

instance : IsTotal FileInclusion descStart :=
  ⟨fun a b => Nat.le_total b.start_position a.start_position⟩

instance : IsTrans FileInclusion descStart :=
  ⟨fun _ _ _ hab hbc => Nat.le_trans hbc hab⟩

theorem scan_facts : ∀ (fuel : Nat) (s : Str) (off : Nat),
    (∀ inc ∈ scanInclusions fuel s off,
      off ≤ inc.start_position ∧
      inc.start_position + inc.full_match.length ≤ off + s.length ∧
      0 < inc.full_match.length) ∧
    List.Pairwise (fun a b => a.start_position + a.full_match.length ≤
      b.start_position) (scanInclusions fuel s off) := by
  intro fuel
  induction fuel with
  | zero =>
    intro s off
    constructor
    · intro inc hinc
      simp [scanInclusions] at hinc
    · simp only [scanInclusions]
      exact List.Pairwise.nil
  | succ n ih =>
    intro s off
    cases s with
    | nil =>
      constructor
      · intro inc hinc
        simp [scanInclusions] at hinc
      · simp only [scanInclusions]
        exact List.Pairwise.nil
    | cons c rest =>
      simp only [scanInclusions]
      split
      · rename_i htag
        split
        · rename_i hcond
          obtain ⟨hws, hpath⟩ := hcond
          have htag5 : 5 ≤ (c :: rest).length := by
            have h5 : atFileTag.length = 5 := rfl
            have hle := (List.isPrefixOf_iff_prefix.mp htag).length_le
            omega
          have hWle : (((c :: rest).drop 5).takeWhile isWsA).length ≤
              ((c :: rest).drop 5).length :=
            (List.takeWhile_prefix isWsA).length_le
          have hPle : ((((c :: rest).drop 5).drop
              (((c :: rest).drop 5).takeWhile isWsA).length).takeWhile
                (fun ch => !isWsA ch)).length ≤
              (((c :: rest).drop 5).drop
                (((c :: rest).drop 5).takeWhile isWsA).length).length :=
            (List.takeWhile_prefix (fun ch => !isWsA ch)).length_le
          have hdlen : ((c :: rest).drop 5).length = (c :: rest).length - 5 :=
            List.length_drop 5 _
          have hdlen2 : (((c :: rest).drop 5).drop
              (((c :: rest).drop 5).takeWhile isWsA).length).length =
              ((c :: rest).drop 5).length -
                (((c :: rest).drop 5).takeWhile isWsA).length :=
            List.length_drop _ _
          have hLEN : 5 + (((c :: rest).drop 5).takeWhile isWsA).length +
              ((((c :: rest).drop 5).drop
                (((c :: rest).drop 5).takeWhile isWsA).length).takeWhile
                  (fun ch => !isWsA ch)).length ≤ (c :: rest).length := by
            omega
          have htakelen : ((c :: rest).take
              (5 + (((c :: rest).drop 5).takeWhile isWsA).length +
                ((((c :: rest).drop 5).drop
                  (((c :: rest).drop 5).takeWhile isWsA).length).takeWhile
                    (fun ch => !isWsA ch)).length)).length =
              5 + (((c :: rest).drop 5).takeWhile isWsA).length +
                ((((c :: rest).drop 5).drop
                  (((c :: rest).drop 5).takeWhile isWsA).length).takeWhile
                    (fun ch => !isWsA ch)).length := by
            rw [List.length_take]
            omega
          obtain ⟨htb, htp⟩ := ih ((c :: rest).drop
              (5 + (((c :: rest).drop 5).takeWhile isWsA).length +
                ((((c :: rest).drop 5).drop
                  (((c :: rest).drop 5).takeWhile isWsA).length).takeWhile
                    (fun ch => !isWsA ch)).length))
            (off + (5 + (((c :: rest).drop 5).takeWhile isWsA).length +
              ((((c :: rest).drop 5).drop
                (((c :: rest).drop 5).takeWhile isWsA).length).takeWhile
                  (fun ch => !isWsA ch)).length))
          have hdroplen : ((c :: rest).drop
              (5 + (((c :: rest).drop 5).takeWhile isWsA).length +
                ((((c :: rest).drop 5).drop
                  (((c :: rest).drop 5).takeWhile isWsA).length).takeWhile
                    (fun ch => !isWsA ch)).length)).length =
              (c :: rest).length -
                (5 + (((c :: rest).drop 5).takeWhile isWsA).length +
                  ((((c :: rest).drop 5).drop
                    (((c :: rest).drop 5).takeWhile isWsA).length).takeWhile
                      (fun ch => !isWsA ch)).length) :=
            List.length_drop _ _
          constructor
          · intro inc hinc
            rcases List.mem_cons.mp hinc with heq | hmem
            · subst heq
              refine ⟨le_refl off, ?_, ?_⟩
              · show off + ((c :: rest).take
                    (5 + (((c :: rest).drop 5).takeWhile isWsA).length +
                      ((((c :: rest).drop 5).drop
                        (((c :: rest).drop 5).takeWhile isWsA).length).takeWhile
                          (fun ch => !isWsA ch)).length)).length ≤
                  off + (c :: rest).length
                rw [htakelen]
                omega
              · show 0 < ((c :: rest).take
                    (5 + (((c :: rest).drop 5).takeWhile isWsA).length +
                      ((((c :: rest).drop 5).drop
                        (((c :: rest).drop 5).takeWhile isWsA).length).takeWhile
                          (fun ch => !isWsA ch)).length)).length
                rw [htakelen]
                omega
            · obtain ⟨h1, h2, h3⟩ := htb inc hmem
              rw [hdroplen] at h2
              refine ⟨by omega, by omega, h3⟩
          · rw [List.pairwise_cons]
            refine ⟨?_, htp⟩
            intro e he
            obtain ⟨h1, -, -⟩ := htb e he
            show off + ((c :: rest).take
                (5 + (((c :: rest).drop 5).takeWhile isWsA).length +
                  ((((c :: rest).drop 5).drop
                    (((c :: rest).drop 5).takeWhile isWsA).length).takeWhile
                      (fun ch => !isWsA ch)).length)).length ≤ e.start_position
            rw [htakelen]
            omega
        · rename_i hcond
          refine ⟨?_, (ih rest (off + 1)).2⟩
          intro inc hinc
          obtain ⟨h1, h2, h3⟩ := (ih rest (off + 1)).1 inc hinc
          refine ⟨by omega, ?_, h3⟩
          simp only [List.length_cons]
          omega
      · rename_i htag
        refine ⟨?_, (ih rest (off + 1)).2⟩
        intro inc hinc
        obtain ⟨h1, h2, h3⟩ := (ih rest (off + 1)).1 inc hinc
        refine ⟨by omega, ?_, h3⟩
        simp only [List.length_cons]
        omega

theorem toDescOK : ∀ (d : List FileInclusion) (B : Nat),
    List.Pairwise Disj d → List.Pairwise descStart d →
    (∀ inc ∈ d, inc.start_position + inc.full_match.length ≤ B) →
    (∀ inc ∈ d, 0 < inc.full_match.length) →
    DescOK B d := by
  intro d
  induction d with
  | nil => intro B _ _ _ _; trivial
  | cons i rest ih =>
    intro B hD hS hB hpos
    rw [List.pairwise_cons] at hD hS
    rw [DescOK_cons]
    refine ⟨hB i (List.mem_cons_self _ _), ?_⟩
    refine ih i.start_position hD.2 hS.2 ?_ ?_
    · intro e he
      rcases hD.1 e he with h | h
      · have h1 : e.start_position ≤ i.start_position := hS.1 e he
        have h2 : 0 < i.full_match.length :=
          hpos i (List.mem_cons_self _ _)
        omega
      · exact h
    · intro e he
      exact hpos e (List.mem_cons_of_mem i he)

theorem foldRepl_keep (repl : FileInclusion → Str) :
    ∀ (d : List FileInclusion) (cur : Str) (b : Nat),
      b ≤ cur.length → DescOK b d → ∀ x : Str, x <:+: cur.drop b →
      x <:+: d.foldl (fun r i =>
        strReplace r i.start_position i.full_match.length (repl i)) cur := by
  intro d
  induction d with
  | nil =>
    intro cur b _ _ x hx
    exact hx.trans (List.drop_suffix b cur).isInfix
  | cons i rest ih =>
    intro cur b hb hok x hx
    obtain ⟨hib, hrest⟩ := (DescOK_cons b i rest).mp hok
    rw [List.foldl_cons]
    have hslen : i.start_position ≤ cur.length := by omega
    have htake : (cur.take i.start_position).length = i.start_position := by
      rw [List.length_take]
      omega
    have hds : (strReplace cur i.start_position i.full_match.length
        (repl i)).drop i.start_position =
        repl i ++ cur.drop (i.start_position + i.full_match.length) := by
      show (cur.take i.start_position ++ repl i ++
        cur.drop (i.start_position + i.full_match.length)).drop
          i.start_position = _
      rw [List.append_assoc]
      exact List.drop_left' htake
    have hlen' : i.start_position ≤ (strReplace cur i.start_position
        i.full_match.length (repl i)).length := by
      show i.start_position ≤ (cur.take i.start_position ++ repl i ++
        cur.drop (i.start_position + i.full_match.length)).length
      rw [List.length_append, List.length_append, List.length_take,
        Nat.min_eq_left hslen]
      omega
    refine ih (strReplace cur i.start_position i.full_match.length (repl i))
      i.start_position hlen' hrest x ?_
    rw [hds]
    have hsuffix : cur.drop b <:+
        cur.drop (i.start_position + i.full_match.length) :=
      List.drop_suffix_drop_left cur hib
    exact (hx.trans hsuffix.isInfix).trans
      ((List.suffix_append (repl i)
        (cur.drop (i.start_position + i.full_match.length))).isInfix)

theorem foldRepl_infix (repl : FileInclusion → Str) :
    ∀ (d : List FileInclusion) (cur : Str) (b : Nat),
      b ≤ cur.length → DescOK b d →
      ∀ inc ∈ d, repl inc <:+:
        d.foldl (fun r i =>
          strReplace r i.start_position i.full_match.length (repl i)) cur := by
  intro d
  induction d with
  | nil =>
    intro cur b _ _ inc hinc
    simp at hinc
  | cons i rest ih =>
    intro cur b hb hok inc hinc
    obtain ⟨hib, hrest⟩ := (DescOK_cons b i rest).mp hok
    rw [List.foldl_cons]
    have hslen : i.start_position ≤ cur.length := by omega
    have htake : (cur.take i.start_position).length = i.start_position := by
      rw [List.length_take]
      omega
    have hlen' : i.start_position ≤ (strReplace cur i.start_position
        i.full_match.length (repl i)).length := by
      show i.start_position ≤ (cur.take i.start_position ++ repl i ++
        cur.drop (i.start_position + i.full_match.length)).length
      rw [List.length_append, List.length_append, List.length_take,
        Nat.min_eq_left hslen]
      omega
    rcases List.mem_cons.mp hinc with heq | hmem
    · subst heq
      refine foldRepl_keep repl rest _ inc.start_position hlen' hrest
        (repl inc) ?_
      have hds : (strReplace cur inc.start_position inc.full_match.length
          (repl inc)).drop inc.start_position =
          repl inc ++ cur.drop (inc.start_position + inc.full_match.length) := by
        show (cur.take inc.start_position ++ repl inc ++
          cur.drop (inc.start_position + inc.full_match.length)).drop
            inc.start_position = _
        rw [List.append_assoc]
        exact List.drop_left' htake
      rw [hds]
      exact ⟨[], cur.drop (inc.start_position + inc.full_match.length),
        by simp⟩
    · exact ih (strReplace cur i.start_position i.full_match.length (repl i))
        i.start_position hlen' hrest inc hmem

theorem descOK_extract (prompt : Str) :
    DescOK prompt.length
      ((extractFileInclusions prompt).insertionSort descStart) := by
  obtain ⟨hbnd, hpair⟩ := scan_facts (prompt.length + 1) prompt 0
  have hperm : List.Perm
      ((extractFileInclusions prompt).insertionSort descStart)
      (extractFileInclusions prompt) :=
    List.perm_insertionSort descStart _
  have hsorted : List.Pairwise descStart
      ((extractFileInclusions prompt).insertionSort descStart) :=
    List.sorted_insertionSort descStart (extractFileInclusions prompt)
  have hsymm : ∀ {x y : FileInclusion}, Disj x y → Disj y x :=
    fun h => h.elim Or.inr Or.inl
  have hDisj : List.Pairwise Disj
      ((extractFileInclusions prompt).insertionSort descStart) :=
    (hperm.pairwise_iff hsymm).mpr (hpair.imp (fun h => Or.inl h))
  refine toDescOK _ prompt.length hDisj hsorted ?_ ?_
  · intro inc hmem
    obtain ⟨-, h2, -⟩ := hbnd inc (hperm.mem_iff.mp hmem)
    omega
  · intro inc hmem
    exact (hbnd inc (hperm.mem_iff.mp hmem)).2.2

theorem marker_in_errOutside (fp : Str) :
    "outside project directory".toList <:+: errOutside fp := by
  refine ⟨"// Error: File '".toList ++ fp ++ "' is ".toList,
    " or access denied".toList, ?_⟩
  unfold errOutside
  have hB : "' is outside project directory or access denied".toList =
      "' is ".toList ++ "outside project directory".toList ++
        " or access denied".toList := by decide
  rw [hB]
  simp [List.append_assoc]

/-- C2: `isPathAllowed` rejects any target whose relative path from the
project root starts with a `..` segment (equivalently, whose rendered
relative path starts with the two characters `..`) and any target that is
not a recorded regular file; during context assembly every inclusion
directive's replacement text — the inline error comment
`// Error: File '<path>' is outside project directory or access denied`
for a disallowed path — appears in the final output, and this holds for
every inclusion in the prompt simultaneously, so the remaining inclusions
are still processed. -/
theorem claim_C2 (fs : PathFs) (path project_root : List String)
    (env : FsEnv) (opts : ContextOptions) (prompt : Str) :
    ((joinSegs (relSegs project_root path)).take 2 = ['.', '.'] →
      isPathAllowed fs path project_root = false) ∧
    (∀ rest', relSegs project_root path = ".." :: rest' →
      isPathAllowed fs path project_root = false) ∧
    (path ∉ fs.regularFiles → isPathAllowed fs path project_root = false) ∧
    (∀ inc ∈ extractFileInclusions prompt,
      inclusionReplacement env opts inc <:+:
        processInclusions env opts prompt) ∧
    (∀ inc ∈ extractFileInclusions prompt,
      env.allowed (env.resolve inc.file_path) = false →
      errOutside inc.file_path <:+: processInclusions env opts prompt ∧
      "outside project directory".toList <:+: errOutside inc.file_path) := by
  have hA1 : (joinSegs (relSegs project_root path)).take 2 = ['.', '.'] →
      isPathAllowed fs path project_root = false := by
    intro h
    simp only [isPathAllowed]
    rw [if_pos h]
  have hmain : ∀ inc ∈ extractFileInclusions prompt,
      inclusionReplacement env opts inc <:+:
        processInclusions env opts prompt := by
    intro inc hmem
    exact foldRepl_infix (inclusionReplacement env opts)
      ((extractFileInclusions prompt).insertionSort descStart) prompt
      prompt.length (le_refl _) (descOK_extract prompt) inc
      ((List.perm_insertionSort descStart _).mem_iff.mpr hmem)
  refine ⟨hA1, ?_, ?_, hmain, ?_⟩
  · intro rest' hrel
    have hjoin : (joinSegs (".." :: rest')).take 2 = ['.', '.'] := by
      cases rest' with
      | nil => decide
      | cons a t => rfl
    refine hA1 ?_
    rw [hrel]
    exact hjoin
  · intro hnm
    simp only [isPathAllowed]
    by_cases h : (joinSegs (relSegs project_root path)).take 2 = ['.', '.']
    · rw [if_pos h]
    · rw [if_neg h]
      simp [List.contains, hnm]
  · intro inc hmem hallow
    have hrepl : inclusionReplacement env opts inc =
        errOutside inc.file_path := by
      simp only [inclusionReplacement]
      rw [if_pos hallow]
    have hA := hmain inc hmem
    rw [hrepl] at hA
    exact ⟨hA, marker_in_errOutside inc.file_path⟩

theorem claim_C2_witness :
    ((joinSegs (relSegs ["proj"] ["etc", "passwd"])).take 2 = ['.', '.'] →
      isPathAllowed { regularFiles := [] } ["etc", "passwd"] ["proj"] =
        false) ∧
    (∀ rest', relSegs ["proj"] ["etc", "passwd"] = ".." :: rest' →
      isPathAllowed { regularFiles := [] } ["etc", "passwd"] ["proj"] =
        false) ∧
    (["etc", "passwd"] ∉ ({ regularFiles := [] } : PathFs).regularFiles →
      isPathAllowed { regularFiles := [] } ["etc", "passwd"] ["proj"] =
        false) ∧
    (∀ inc ∈ extractFileInclusions "@file ../x ok".toList,
      inclusionReplacement trivEnv {} inc <:+:
        processInclusions trivEnv {} "@file ../x ok".toList) ∧
    (∀ inc ∈ extractFileInclusions "@file ../x ok".toList,
      trivEnv.allowed (trivEnv.resolve inc.file_path) = false →
      errOutside inc.file_path <:+:
        processInclusions trivEnv {} "@file ../x ok".toList ∧
      "outside project directory".toList <:+: errOutside inc.file_path) :=
  claim_C2 { regularFiles := [] } ["etc", "passwd"] ["proj"] trivEnv {}
    "@file ../x ok".toList

end llm

end CLion
